import Mathlib

/-!
A verification development for the checkers engine in `checkers.py`.

The board is an 8×8 grid of characters ('r', 'R', 'b', 'B', '.'); a `State`
is a board together with the side to move next.  Python's numeric values
(ints and floats such as `0.5` and `0.15`) are embedded as rationals.
The recursive jump-move generation terminates in the source because each
chained jump removes one opponent piece from the board copy; here this is
made explicit by a fuel parameter instantiated with the opponent piece
count plus one, which by that same argument never runs out.
-/

/- Core `Rat` arithmetic is `@[irreducible]`, which only affects tactic-time
unfolding; concrete evaluation inside `decide` needs these unsealed. -/
attribute [local semireducible] Rat.add Rat.sub Rat.mul Rat.ofScientific Rat.inv

namespace Checkers

abbrev Board := List (List Char)

def WIDTH : Int := 8
def HEIGHT : Int := 8

def RED_PIECE : Char := 'r'
def RED_KING : Char := 'R'
def BLACK_PIECE : Char := 'b'
def BLACK_KING : Char := 'B'
def EMPTY_SQUARE : Char := '.'

def MIN_UTILITY : ℚ := -1000000000
def MAX_UTILITY : ℚ := 1000000000

def DEPTH_LIMIT : Nat := 9

structure State where
  board : Board
  next_turn : Char
deriving DecidableEq, Repr, Inhabited

/-- Read the square at row `i`, column `j` (as in `board[i][j]`); all reads
performed by the engine are guarded to be inside the 8×8 grid, so squares
outside it are reported empty. -/
def getC (b : Board) (i j : Int) : Char :=
  if 0 ≤ i ∧ i < HEIGHT ∧ 0 ≤ j ∧ j < WIDTH then
    (b.getD i.toNat []).getD j.toNat EMPTY_SQUARE
  else EMPTY_SQUARE

/-- Write the square at row `i`, column `j` (as in `board[i][j] = c`); all
writes performed by the engine are inside the 8×8 grid. -/
def setC (b : Board) (i j : Int) (c : Char) : Board :=
  if 0 ≤ i ∧ i < HEIGHT ∧ 0 ≤ j ∧ j < WIDTH then
    b.set i.toNat ((b.getD i.toNat []).set j.toNat c)
  else b

/-- `RED_PIECE if turn == RED_PIECE else BLACK_PIECE`. -/
def piece_of (turn : Char) : Char := if turn == RED_PIECE then RED_PIECE else BLACK_PIECE

/-- `RED_KING if turn == RED_PIECE else BLACK_KING`. -/
def king_of (turn : Char) : Char := if turn == RED_PIECE then RED_KING else BLACK_KING

/-- `BLACK_PIECE if turn == RED_PIECE else RED_PIECE` (the opponent's man). -/
def opp_piece (turn : Char) : Char := if turn == RED_PIECE then BLACK_PIECE else RED_PIECE

/-- `BLACK_KING if turn == RED_PIECE else RED_KING` (the opponent's king). -/
def opp_king (turn : Char) : Char := if turn == RED_PIECE then BLACK_KING else RED_KING

/-- Forward diagonal directions of a man: red advances toward smaller row
indices, black toward larger ones. -/
def piece_dirs (turn : Char) : List (Int × Int) :=
  if turn == RED_PIECE then [(-1, -1), (-1, 1)] else [(1, -1), (1, 1)]

/-- All four diagonal directions, used by kings. -/
def king_dirs : List (Int × Int) := [(-1, -1), (-1, 1), (1, -1), (1, 1)]

def get_next_turn (curr_turn : Char) : Char :=
  if curr_turn == RED_PIECE then BLACK_PIECE else RED_PIECE

/-- `State.red_win`: red wins iff there are no black pieces remaining. -/
def State.red_win (s : State) : Bool :=
  (List.range 8).all fun i => (List.range 8).all fun j =>
    !(getC s.board i j == BLACK_PIECE || getC s.board i j == BLACK_KING)

/-- `State.black_win`: black wins iff there are no red pieces remaining. -/
def State.black_win (s : State) : Bool :=
  (List.range 8).all fun i => (List.range 8).all fun j =>
    !(getC s.board i j == RED_PIECE || getC s.board i j == RED_KING)

/-- `State._can_jump`: the jumped-over and landing squares are in bounds, the
landing square is empty, and the jumped-over square holds an opponent piece. -/
def can_jump (jump_over_y jump_over_x jump_to_y jump_to_x : Int)
    (next_next_player_piece next_next_player_king : Char) (curr_board : Board) : Bool :=
  decide (0 ≤ jump_over_y) && decide (jump_over_y < HEIGHT) &&
  decide (0 ≤ jump_over_x) && decide (jump_over_x < WIDTH) &&
  decide (0 ≤ jump_to_y) && decide (jump_to_y < HEIGHT) &&
  decide (0 ≤ jump_to_x) && decide (jump_to_x < WIDTH) &&
  (getC curr_board jump_to_y jump_to_x == EMPTY_SQUARE) &&
  (getC curr_board jump_over_y jump_over_x == next_next_player_piece ||
   getC curr_board jump_over_y jump_over_x == next_next_player_king)

/-- Number of squares of `curr_board` holding `p` or `k`; each chained jump
removes one opponent piece, so this is the fuel measure of the recursion. -/
def countOppB (b : Board) (p k : Char) : Nat :=
  (b.map fun row => row.countP fun c => c == p || c == k).sum

/-- Body of `State._generate_jump_moves_for_piece` (a man's chained jumps),
with fuel making the capture-count recursion structural.  Each direction of
the loop: if the jump is possible, remove the moving piece and the jumped
piece, then either promote and stop (far row) or place the man and continue
the chain from the landing square. -/
def jump_piece_go (s : State) (fuel : Nat) (i j : Int) (curr_board : Board) : List State :=
  match fuel with
  | 0 => []
  | fuel + 1 =>
    let nnp := opp_piece s.next_turn
    let nnk := opp_king s.next_turn
    let all_empty := (piece_dirs s.next_turn).all fun d =>
      !(can_jump (i + d.1) (j + d.2) (i + d.1 + d.1) (j + d.2 + d.2) nnp nnk curr_board)
    if all_empty && (s.board == curr_board) then []
    else if all_empty then [⟨curr_board, nnp⟩]
    else
      ((piece_dirs s.next_turn).map fun d =>
        if can_jump (i + d.1) (j + d.2) (i + d.1 + d.1) (j + d.2 + d.2) nnp nnk curr_board then
          let b2 := setC (setC curr_board i j EMPTY_SQUARE) (i + d.1) (j + d.2) EMPTY_SQUARE
          if (i + d.1 + d.1 == 0 && s.next_turn == RED_PIECE) ||
             (i + d.1 + d.1 == HEIGHT - 1 && s.next_turn == BLACK_PIECE) then
            [⟨setC b2 (i + d.1 + d.1) (j + d.2 + d.2) (king_of s.next_turn), nnp⟩]
          else
            jump_piece_go s fuel (i + d.1 + d.1) (j + d.2 + d.2)
              (setC b2 (i + d.1 + d.1) (j + d.2 + d.2) (piece_of s.next_turn))
        else []).flatten
termination_by structural fuel

/-- One direction of the man jump loop, as a named function (definitionally
the loop body mapped inside `jump_piece_go`). -/
def jump_piece_dir (s : State) (fuel : Nat) (i j x y : Int) (curr_board : Board) : List State :=
  let nnp := opp_piece s.next_turn
  let nnk := opp_king s.next_turn
  if can_jump (i + x) (j + y) (i + x + x) (j + y + y) nnp nnk curr_board then
    let b2 := setC (setC curr_board i j EMPTY_SQUARE) (i + x) (j + y) EMPTY_SQUARE
    if (i + x + x == 0 && s.next_turn == RED_PIECE) ||
       (i + x + x == HEIGHT - 1 && s.next_turn == BLACK_PIECE) then
      [⟨setC b2 (i + x + x) (j + y + y) (king_of s.next_turn), nnp⟩]
    else
      jump_piece_go s fuel (i + x + x) (j + y + y)
        (setC b2 (i + x + x) (j + y + y) (piece_of s.next_turn))
  else []

/-- Body of `State._generate_jump_moves_for_king`, with fuel; a king's jump
places a king at the landing square and always continues the chain. -/
def jump_king_go (s : State) (fuel : Nat) (i j : Int) (curr_board : Board) : List State :=
  match fuel with
  | 0 => []
  | fuel + 1 =>
    let nnp := opp_piece s.next_turn
    let nnk := opp_king s.next_turn
    let all_empty := king_dirs.all fun d =>
      !(can_jump (i + d.1) (j + d.2) (i + d.1 + d.1) (j + d.2 + d.2) nnp nnk curr_board)
    if all_empty && (s.board == curr_board) then []
    else if all_empty then [⟨curr_board, nnp⟩]
    else
      (king_dirs.map fun d =>
        if can_jump (i + d.1) (j + d.2) (i + d.1 + d.1) (j + d.2 + d.2) nnp nnk curr_board then
          let b2 := setC (setC curr_board i j EMPTY_SQUARE) (i + d.1) (j + d.2) EMPTY_SQUARE
          jump_king_go s fuel (i + d.1 + d.1) (j + d.2 + d.2)
            (setC b2 (i + d.1 + d.1) (j + d.2 + d.2) (king_of s.next_turn))
        else []).flatten
termination_by structural fuel

/-- One direction of the king jump loop, as a named function. -/
def jump_king_dir (s : State) (fuel : Nat) (i j x y : Int) (curr_board : Board) : List State :=
  let nnp := opp_piece s.next_turn
  let nnk := opp_king s.next_turn
  if can_jump (i + x) (j + y) (i + x + x) (j + y + y) nnp nnk curr_board then
    let b2 := setC (setC curr_board i j EMPTY_SQUARE) (i + x) (j + y) EMPTY_SQUARE
    jump_king_go s fuel (i + x + x) (j + y + y)
      (setC b2 (i + x + x) (j + y + y) (king_of s.next_turn))
  else []

/-- `State._generate_jump_moves_for_piece`, the fuel instantiated with one
more than the number of opponent pieces on the board copy. -/
def State._generate_jump_moves_for_piece (s : State) (i j : Int) (curr_board : Board) :
    List State :=
  jump_piece_go s (countOppB curr_board (opp_piece s.next_turn) (opp_king s.next_turn) + 1)
    i j curr_board

/-- `State._generate_jump_moves_for_king`, the fuel instantiated as above. -/
def State._generate_jump_moves_for_king (s : State) (i j : Int) (curr_board : Board) :
    List State :=
  jump_king_go s (countOppB curr_board (opp_piece s.next_turn) (opp_king s.next_turn) + 1)
    i j curr_board

/-- `State._generate_jump_moves_for_curr`: dispatch on whether `(i, j)` holds
`turn`'s man or king (the board copy passed on is the board itself,
`deepcopy` being identity under value semantics). -/
def State._generate_jump_moves_for_curr (s : State) (i j : Int) (turn : Char) : List State :=
  if getC s.board i j == piece_of turn then s._generate_jump_moves_for_piece i j s.board
  else if getC s.board i j == king_of turn then s._generate_jump_moves_for_king i j s.board
  else []

/-- `State._generate_jump_moves`: scan every square owned by the side to move
and collect its chained jumps. -/
def State._generate_jump_moves (s : State) : List State :=
  ((List.range 8).map fun i =>
    ((List.range 8).map fun j =>
      if getC s.board i j == king_of s.next_turn || getC s.board i j == piece_of s.next_turn
      then s._generate_jump_moves_for_curr i j s.next_turn
      else []).flatten).flatten

/-- One direction of the simple-move loop for a man: step into an adjacent
empty square, promoting on the far row. -/
def simple_piece_dir (s : State) (next_player : Char) (i j x y : Int) : List State :=
  if decide (0 ≤ i + x) && decide (i + x < HEIGHT) && decide (0 ≤ j + y) &&
     decide (j + y < WIDTH) && (getC s.board (i + x) (j + y) == EMPTY_SQUARE) then
    let b1 := setC s.board i j EMPTY_SQUARE
    if (i + x == 0 && next_player == RED_PIECE) ||
       (i + x == HEIGHT - 1 && next_player == BLACK_PIECE) then
      [⟨setC b1 (i + x) (j + y) (king_of next_player), get_next_turn next_player⟩]
    else
      [⟨setC b1 (i + x) (j + y) (piece_of next_player), get_next_turn next_player⟩]
  else []

/-- One direction of the simple-move loop for a king. -/
def simple_king_dir (s : State) (next_player : Char) (i j x y : Int) : List State :=
  if decide (0 ≤ i + x) && decide (i + x < HEIGHT) && decide (0 ≤ j + y) &&
     decide (j + y < WIDTH) && (getC s.board (i + x) (j + y) == EMPTY_SQUARE) then
    let b1 := setC s.board i j EMPTY_SQUARE
    [⟨setC b1 (i + x) (j + y) (king_of next_player), get_next_turn next_player⟩]
  else []

/-- `State._generate_simple_moves`: one-square diagonal steps for every man
and king of `next_player`. -/
def State._generate_simple_moves (s : State) (next_player : Char) : List State :=
  ((List.range 8).map fun i =>
    ((List.range 8).map fun j =>
      if getC s.board i j == piece_of next_player then
        ((piece_dirs next_player).map fun d =>
          simple_piece_dir s next_player i j d.1 d.2).flatten
      else if getC s.board i j == king_of next_player then
        (king_dirs.map fun d => simple_king_dir s next_player i j d.1 d.2).flatten
      else []).flatten).flatten

/-- `State.generate_successors`: jump moves if any exist, else simple moves
(forced-capture dispatch). -/
def State.generate_successors (s : State) : List State :=
  let jump_moves := s._generate_jump_moves
  if jump_moves.length == 0 then s._generate_simple_moves s.next_turn else jump_moves

/-- `State._get_evaluation_params`: the six counters accumulated by the
scanning loop, written as sums of per-square indicator contributions. -/
def State._get_evaluation_params (s : State) (player : Char) :
    Nat × Nat × Nat × Nat × Nat × Nat :=
  let player_piece := player
  let player_king := if player == RED_PIECE then RED_KING else BLACK_KING
  let num_pieces := ((List.range 8).map fun i => ((List.range 8).map fun j =>
    if getC s.board i j == player_piece then 1 else 0).sum).sum
  let num_kings := ((List.range 8).map fun i => ((List.range 8).map fun j =>
    if getC s.board i j == player_king then 1 else 0).sum).sum
  let num_center := ((List.range 8).map fun i => ((List.range 8).map fun j =>
    if (getC s.board i j == player_piece || getC s.board i j == player_king) &&
       ((decide (2 ≤ (i : Int)) && decide ((i : Int) ≤ 5) &&
         decide (3 ≤ (j : Int)) && decide ((j : Int) ≤ 4)) ||
        (decide (2 ≤ (j : Int)) && decide ((j : Int) ≤ 5) &&
         decide (3 ≤ (i : Int)) && decide ((i : Int) ≤ 4)))
    then 1 else 0).sum).sum
  let num_advanced := ((List.range 8).map fun i => ((List.range 8).map fun j =>
    if (getC s.board i j == player_piece || getC s.board i j == player_king) &&
       ((player_piece == RED_PIECE && decide ((i : Int) ≤ 3)) ||
        (player_piece == BLACK_PIECE && decide (4 ≤ (i : Int))))
    then 1 else 0).sum).sum
  let num_edge := ((List.range 8).map fun i => ((List.range 8).map fun j =>
    if (getC s.board i j == player_piece || getC s.board i j == player_king) &&
       ((j : Int) == 0 || (j : Int) == WIDTH - 1)
    then 1 else 0).sum).sum
  let num_can_attack := ((List.range 8).map fun i => ((List.range 8).map fun j =>
    if (getC s.board i j == player_piece || getC s.board i j == player_king) &&
       decide (0 < (s._generate_jump_moves_for_curr i j player).length)
    then 1 else 0).sum).sum
  (num_pieces, num_kings, num_center, num_advanced, num_edge, num_can_attack)

/-- `State.get_utility`: terminal win/loss values oriented to the player who
moved into this state, else the weighted material/positional heuristic. -/
def State.get_utility (s : State) : ℚ :=
  if s.red_win && (s.next_turn == RED_PIECE) then MIN_UTILITY
  else if s.red_win && (s.next_turn == BLACK_PIECE) then MAX_UTILITY
  else if s.black_win && (s.next_turn == RED_PIECE) then MAX_UTILITY
  else if s.black_win && (s.next_turn == BLACK_PIECE) then MIN_UTILITY
  else
    let pp := s._get_evaluation_params
      (if s.next_turn == RED_PIECE then BLACK_PIECE else RED_PIECE)
    let po := s._get_evaluation_params s.next_turn
    ((pp.1 : ℚ) + 2 * (pp.2.1 : ℚ) + 0.5 * (pp.2.2.1 : ℚ) + 0.15 * (pp.2.2.2.2.1 : ℚ)) -
    ((po.1 : ℚ) + 2 * (po.2.1 : ℚ) + 0.5 * (po.2.2.1 : ℚ) + 0.15 * (po.2.2.2.2.1 : ℚ))

end Checkers

namespace Checkers

/-- `CachedState`: value, depth of computation, and chosen best successor. -/
structure CachedState where
  v : ℚ
  depth : Nat
  successor : Option State
deriving DecidableEq, Repr, Inhabited

/-- The memoization table `cached`; the Python key `str(state.board) + turn`
identifies exactly the pair (board contents, turn character). -/
abbrev Cache := List ((Board × Char) × CachedState)

/-- `state_str in cached` / `cached[state_str]`. -/
def cfind (cache : Cache) (k : Board × Char) : Option CachedState :=
  (cache.find? fun e => decide (e.1 = k)).map (·.2)

/-- `cached[state_str] = e` (a later write shadows an earlier one). -/
def cstore (cache : Cache) (k : Board × Char) (e : CachedState) : Cache :=
  (k, e) :: cache

/-- The guarded read `state_str in cached and cached[state_str].depth >=
current_depth`: an entry is returned only when its recorded depth is at least
the currently requested depth. -/
def cacheLookup (cache : Cache) (k : Board × Char) (current_depth : Nat) :
    Option CachedState :=
  match cfind cache k with
  | some e => if e.depth ≥ current_depth then some e else none
  | none => none

/-- The move-ordering list of the MAX role: successors sorted by static
utility, descending.  Python's `sort` is stable; a stable sort by a given
key is unique, so stable insertion sort computes the same list. -/
def max_node_order (state : State) : List State :=
  state.generate_successors.insertionSort fun a b => b.get_utility ≤ a.get_utility

/-- The move-ordering list of the MIN role: successors sorted by static
utility, ascending (stable). -/
def min_node_order (state : State) : List State :=
  state.generate_successors.insertionSort fun a b => a.get_utility ≤ b.get_utility

/-- Loop state of the successor iteration in `alphabeta_max_node`: the flag
records that the loop returned early (beta cutoff). -/
structure MaxAcc where
  done : Bool
  v : ℚ
  best : State
  alpha : ℚ
  cache : Cache

/-- Loop state of the successor iteration in `alphabeta_min_node`. -/
structure MinAcc where
  done : Bool
  v : ℚ
  best : State
  beta : ℚ
  cache : Cache

mutual

/-- `alphabeta_max_node`: cache lookup, terminal/horizon check, loss on no
successors, then the alpha-beta maximizing loop over the ordered successors,
threading the cache and recording the running best after every successor. -/
def alphabeta_max_node (state : State) (turn : Char) (alpha beta : ℚ)
    (current_depth : Nat) (cache : Cache) : ℚ × Option State × Cache :=
  Option.elim (cacheLookup cache (state.board, turn) current_depth)
    (if current_depth == 0 || state.red_win || state.black_win then
      (state.get_utility, none, cache)
    else
      match current_depth with
      | 0 => (state.get_utility, none, cache)  -- inaccessible: covered by the guard above
      | d + 1 =>
        if (state.generate_successors).length == 0 then
          (MIN_UTILITY, none,
            cstore cache (state.board, turn) ⟨MIN_UTILITY, d + 1, none⟩)
        else
          let sorted := max_node_order state
          let acc := sorted.foldl (fun (acc : MaxAcc) successor =>
            if acc.done then acc
            else
              let r := alphabeta_min_node successor (get_next_turn turn) acc.alpha beta d
                acc.cache
              let tempval := r.1
              let v' := if tempval > acc.v then tempval else acc.v
              let best' := if tempval > acc.v then successor else acc.best
              if tempval > beta then
                ⟨true, v', successor, acc.alpha,
                  cstore r.2.2 (state.board, turn) ⟨v', d + 1, some successor⟩⟩
              else
                ⟨false, v', best', max acc.alpha tempval,
                  cstore r.2.2 (state.board, turn) ⟨v', d + 1, some best'⟩⟩)
            ⟨false, MIN_UTILITY, sorted.headD state, alpha, cache⟩
          (acc.v, some acc.best, acc.cache))
    (fun e => (e.v, e.successor, cache))
termination_by structural current_depth

/-- `alphabeta_min_node`, the mirrored minimizing role. -/
def alphabeta_min_node (state : State) (turn : Char) (alpha beta : ℚ)
    (current_depth : Nat) (cache : Cache) : ℚ × Option State × Cache :=
  Option.elim (cacheLookup cache (state.board, turn) current_depth)
    (if current_depth == 0 || state.red_win || state.black_win then
      (state.get_utility, none, cache)
    else
      match current_depth with
      | 0 => (state.get_utility, none, cache)  -- inaccessible: covered by the guard above
      | d + 1 =>
        if (state.generate_successors).length == 0 then
          (MAX_UTILITY, none,
            cstore cache (state.board, turn) ⟨MAX_UTILITY, d + 1, none⟩)
        else
          let sorted := min_node_order state
          let acc := sorted.foldl (fun (acc : MinAcc) successor =>
            if acc.done then acc
            else
              let r := alphabeta_max_node successor (get_next_turn turn) alpha acc.beta d
                acc.cache
              let tempval := r.1
              let v' := if tempval < acc.v then tempval else acc.v
              let best' := if tempval < acc.v then successor else acc.best
              if tempval < alpha then
                ⟨true, v', successor, acc.beta,
                  cstore r.2.2 (state.board, turn) ⟨v', d + 1, some successor⟩⟩
              else
                ⟨false, v', best', min acc.beta tempval,
                  cstore r.2.2 (state.board, turn) ⟨v', d + 1, some best'⟩⟩)
            ⟨false, MAX_UTILITY, sorted.headD state, beta, cache⟩
          (acc.v, some acc.best, acc.cache))
    (fun e => (e.v, e.successor, cache))
termination_by structural current_depth

end

/-- The part of `alphabeta_max_node` after the cache lookup (the work a call
performs when no trusted entry is found). -/
def alphabeta_max_recompute (state : State) (turn : Char) (alpha beta : ℚ)
    (current_depth : Nat) (cache : Cache) : ℚ × Option State × Cache :=
  if current_depth == 0 || state.red_win || state.black_win then
    (state.get_utility, none, cache)
  else
    match current_depth with
    | 0 => (state.get_utility, none, cache)
    | d + 1 =>
      if (state.generate_successors).length == 0 then
        (MIN_UTILITY, none,
          cstore cache (state.board, turn) ⟨MIN_UTILITY, d + 1, none⟩)
      else
        let sorted := max_node_order state
        let acc := sorted.foldl (fun (acc : MaxAcc) successor =>
          if acc.done then acc
          else
            let r := alphabeta_min_node successor (get_next_turn turn) acc.alpha beta d
              acc.cache
            let tempval := r.1
            let v' := if tempval > acc.v then tempval else acc.v
            let best' := if tempval > acc.v then successor else acc.best
            if tempval > beta then
              ⟨true, v', successor, acc.alpha,
                cstore r.2.2 (state.board, turn) ⟨v', d + 1, some successor⟩⟩
            else
              ⟨false, v', best', max acc.alpha tempval,
                cstore r.2.2 (state.board, turn) ⟨v', d + 1, some best'⟩⟩)
          ⟨false, MIN_UTILITY, sorted.headD state, alpha, cache⟩
        (acc.v, some acc.best, acc.cache)

/-- The part of `alphabeta_min_node` after the cache lookup. -/
def alphabeta_min_recompute (state : State) (turn : Char) (alpha beta : ℚ)
    (current_depth : Nat) (cache : Cache) : ℚ × Option State × Cache :=
  if current_depth == 0 || state.red_win || state.black_win then
    (state.get_utility, none, cache)
  else
    match current_depth with
    | 0 => (state.get_utility, none, cache)
    | d + 1 =>
      if (state.generate_successors).length == 0 then
        (MAX_UTILITY, none,
          cstore cache (state.board, turn) ⟨MAX_UTILITY, d + 1, none⟩)
      else
        let sorted := min_node_order state
        let acc := sorted.foldl (fun (acc : MinAcc) successor =>
          if acc.done then acc
          else
            let r := alphabeta_max_node successor (get_next_turn turn) alpha acc.beta d
              acc.cache
            let tempval := r.1
            let v' := if tempval < acc.v then tempval else acc.v
            let best' := if tempval < acc.v then successor else acc.best
            if tempval < alpha then
              ⟨true, v', successor, acc.beta,
                cstore r.2.2 (state.board, turn) ⟨v', d + 1, some successor⟩⟩
            else
              ⟨false, v', best', min acc.beta tempval,
                cstore r.2.2 (state.board, turn) ⟨v', d + 1, some best'⟩⟩)
          ⟨false, MAX_UTILITY, sorted.headD state, beta, cache⟩
        (acc.v, some acc.best, acc.cache)

end Checkers

namespace Checkers

/-! ### Spec-side counting functions (§4.2 of the spec) -/

/-- All 64 board coordinates, row-major. -/
def allSquares : List (Int × Int) :=
  ((List.range 8).map fun i => (List.range 8).map fun j => ((i : Int), (j : Int))).flatten

/-- Number of men of colour character `p` on the board. -/
def menCount (b : Board) (p : Char) : Nat :=
  allSquares.countP fun q => getC b q.1 q.2 == p

/-- Number of kings of character `k` on the board. -/
def kingCount (b : Board) (k : Char) : Nat :=
  allSquares.countP fun q => getC b q.1 q.2 == k

/-- The designated central region of the board. -/
def isCenter (q : Int × Int) : Bool :=
  (decide (2 ≤ q.1) && decide (q.1 ≤ 5) && decide (3 ≤ q.2) && decide (q.2 ≤ 4)) ||
  (decide (2 ≤ q.2) && decide (q.2 ≤ 5) && decide (3 ≤ q.1) && decide (q.1 ≤ 4))

/-- Pieces (men or kings) of one colour in the central region. -/
def centerCount (b : Board) (p k : Char) : Nat :=
  allSquares.countP fun q => (getC b q.1 q.2 == p || getC b q.1 q.2 == k) && isCenter q

/-- Pieces (men or kings) of one colour in columns 0 and 7. -/
def edgeCount (b : Board) (p k : Char) : Nat :=
  allSquares.countP fun q =>
    (getC b q.1 q.2 == p || getC b q.1 q.2 == k) && (q.2 == 0 || q.2 == WIDTH - 1)

/-- The linear heuristic of one colour:
`pieces + 2*kings + 0.5*center + 0.15*edge`. -/
def colorScore (b : Board) (p k : Char) : ℚ :=
  (menCount b p : ℚ) + 2 * (kingCount b k : ℚ) + 0.5 * (centerCount b p k : ℚ) +
    0.15 * (edgeCount b p k : ℚ)

/-! ### Concrete boards used by the witnesses -/

/-- Rows of characters as a board. -/
def mkB (rows : List String) : Board := rows.map (·.toList)

/-- Red to move has a capture available (and also simple moves elsewhere). -/
def wJumpB : Board := mkB [
  "........",
  ".b......",
  "........",
  "...b....",
  "....r...",
  "........",
  "...r....",
  "........"]

/-- Red to move has no legal move at all: the lone red man sits on the far
row, and black is far away (black still has a piece, so the game is not
already won). -/
def wStuckB : Board := mkB [
  "r.......",
  "........",
  "..b.....",
  "........",
  "........",
  "........",
  "........",
  "........"]

/-- Only red pieces remain: red has won. -/
def wWinB : Board := mkB [
  "........",
  "........",
  "..r.....",
  "........",
  "........",
  "........",
  "........",
  "........"]

/-- Red man about to jump-and-promote on row 0. -/
def wPromoB : Board := mkB [
  "........",
  ".b.b....",
  "..r.....",
  "........",
  "........",
  "........",
  "........",
  ".......b"]

/-! ### C1: forced-capture dispatch of `generate_successors` -/

/-- C1: if any capturing successor exists for the side to move, the returned
list is exactly the jump-derived successors (no simple move appears); only
when no capture exists anywhere does it return the simple-move successors. -/
theorem generate_successors_forced_capture (s : State) :
    (s._generate_jump_moves ≠ [] → s.generate_successors = s._generate_jump_moves) ∧
    (s._generate_jump_moves = [] → s.generate_successors = s._generate_simple_moves s.next_turn) := by
  refine ⟨fun h => ?_, fun h => ?_⟩ <;>
    simp [State.generate_successors, h, List.length_eq_zero]

/-- Witness for C1 on a concrete board with an available capture. -/
theorem generate_successors_forced_capture_w :
    (⟨wJumpB, 'r'⟩ : State)._generate_jump_moves ≠ [] ∧
    (⟨wJumpB, 'r'⟩ : State).generate_successors = (⟨wJumpB, 'r'⟩ : State)._generate_jump_moves :=
  ⟨by decide, (generate_successors_forced_capture ⟨wJumpB, 'r'⟩).1 (by decide)⟩

/-! ### C4: terminal utility orientation -/

/-- C4: when exactly one side has pieces left, the utility is the
maximum-magnitude value iff the winner is the player who just moved (the
opposite of `next_turn`), and the minimum-magnitude value iff the player who
just moved lost. -/
theorem get_utility_terminal_orientation (s : State)
    (ht : s.next_turn = RED_PIECE ∨ s.next_turn = BLACK_PIECE) :
    (s.red_win = true → s.black_win = false →
      s.get_utility = if s.next_turn = BLACK_PIECE then MAX_UTILITY else MIN_UTILITY) ∧
    (s.black_win = true → s.red_win = false →
      s.get_utility = if s.next_turn = RED_PIECE then MAX_UTILITY else MIN_UTILITY) := by
  rcases ht with h | h <;>
    refine ⟨fun hr hb => ?_, fun hb hr => ?_⟩ <;>
      simp [State.get_utility, h, hr, hb, RED_PIECE, BLACK_PIECE]

/-- Witness for C4: the red-win board in both orientations. -/
theorem get_utility_terminal_orientation_w :
    (⟨wWinB, 'b'⟩ : State).get_utility = MAX_UTILITY ∧
    (⟨wWinB, 'r'⟩ : State).get_utility = MIN_UTILITY := by
  constructor
  · simpa [BLACK_PIECE] using
      (get_utility_terminal_orientation ⟨wWinB, 'b'⟩ (Or.inr rfl)).1 (by decide) (by decide)
  · simpa [RED_PIECE, BLACK_PIECE] using
      (get_utility_terminal_orientation ⟨wWinB, 'r'⟩ (Or.inl rfl)).1 (by decide) (by decide)

end Checkers

namespace Checkers

/-! ### C6: a man's jump landing on the far row promotes and ends the chain -/

/-- C6: in man jump generation, when the jump in direction `(x, y)` lands on
the far edge row of the mover's colour, the moving piece is placed as a king,
the single resulting successor is emitted with the turn passed to the
opponent, and no further chained captures are explored (the direction's
contribution is exactly that one state, independent of remaining fuel). -/
theorem man_jump_promotion_ends_chain (s : State) (fuel : Nat) (i j x y : Int) (b : Board)
    (hc : can_jump (i + x) (j + y) (i + x + x) (j + y + y)
      (opp_piece s.next_turn) (opp_king s.next_turn) b = true)
    (hfar : (i + x + x = 0 ∧ s.next_turn = RED_PIECE) ∨
            (i + x + x = HEIGHT - 1 ∧ s.next_turn = BLACK_PIECE)) :
    jump_piece_dir s fuel i j x y b =
      [⟨setC (setC (setC b i j EMPTY_SQUARE) (i + x) (j + y) EMPTY_SQUARE)
          (i + x + x) (j + y + y) (king_of s.next_turn), opp_piece s.next_turn⟩] := by
  have hcond : ((i + x + x == 0 && s.next_turn == RED_PIECE) ||
      (i + x + x == HEIGHT - 1 && s.next_turn == BLACK_PIECE)) = true := by
    rcases hfar with ⟨h1, h2⟩ | ⟨h1, h2⟩ <;> simp [h1, h2]
  simp [jump_piece_dir, hc, hcond]

/-- Witness for C6: the concrete jump from (2,2) over (1,1) landing on (0,0). -/
theorem man_jump_promotion_ends_chain_w :
    jump_piece_dir (⟨wPromoB, 'r'⟩ : State) 0 2 2 (-1) (-1) wPromoB =
      [⟨setC (setC (setC wPromoB 2 2 EMPTY_SQUARE) (2 + -1) (2 + -1) EMPTY_SQUARE)
          (2 + -1 + -1) (2 + -1 + -1) (king_of 'r'), opp_piece 'r'⟩] :=
  man_jump_promotion_ends_chain ⟨wPromoB, 'r'⟩ 0 2 2 (-1) (-1) wPromoB (by decide)
    (Or.inl ⟨by decide, rfl⟩)

/-! ### C7: no legal move is a structural loss, recorded in the cache -/

/-- C7: at a non-terminal state with a nonzero depth budget, no trusted cache
entry and no successors, the search returns the extreme value favouring the
opponent with no successor and records that value in the table at the
current depth (totality of the definitions: no exception is possible). -/
theorem alphabeta_no_successor_loss (state : State) (turn : Char) (alpha beta : ℚ)
    (d : Nat) (cache : Cache)
    (hl : cacheLookup cache (state.board, turn) d = none)
    (hd : d ≠ 0) (hr : state.red_win = false) (hb : state.black_win = false)
    (hs : state.generate_successors = []) :
    alphabeta_max_node state turn alpha beta d cache =
      (MIN_UTILITY, none, cstore cache (state.board, turn) ⟨MIN_UTILITY, d, none⟩) ∧
    alphabeta_min_node state turn alpha beta d cache =
      (MAX_UTILITY, none, cstore cache (state.board, turn) ⟨MAX_UTILITY, d, none⟩) := by
  obtain ⟨e, rfl⟩ : ∃ e, d = e + 1 :=
    ⟨d - 1, (Nat.succ_pred_eq_of_pos (Nat.pos_of_ne_zero hd)).symm⟩
  constructor
  · rw [alphabeta_max_node.eq_def, hl]
    simp [hr, hb, hs]
  · rw [alphabeta_min_node.eq_def, hl]
    simp [hr, hb, hs]

/-- Witness for C7: red on the far row with no move. -/
theorem alphabeta_no_successor_loss_w :
    alphabeta_max_node ⟨wStuckB, 'r'⟩ 'r' MIN_UTILITY MAX_UTILITY 3 [] =
      (MIN_UTILITY, none, cstore [] (wStuckB, 'r') ⟨MIN_UTILITY, 3, none⟩) :=
  (alphabeta_no_successor_loss ⟨wStuckB, 'r'⟩ 'r' MIN_UTILITY MAX_UTILITY 3 []
    (by decide) (by decide) (by decide) (by decide) (by decide)).1

end Checkers

namespace Checkers

/-! ### C10: every successor's turn is the opponent's -/

lemma jump_piece_go_turn (s : State) : ∀ (fuel : Nat) (i j : Int) (b : Board),
    ∀ s' ∈ jump_piece_go s fuel i j b, s'.next_turn = opp_piece s.next_turn := by
  intro fuel
  induction fuel with
  | zero => intro i j b s' h; simp [jump_piece_go] at h
  | succ n ih =>
    intro i j b s' h
    rw [jump_piece_go] at h
    split at h
    · simp at h
    · split at h
      · simp at h
        rw [h]
      · simp only [List.mem_flatten, List.mem_map] at h
        obtain ⟨l, ⟨d, _, rfl⟩, hmem⟩ := h
        split at hmem
        · split at hmem
          · simp at hmem
            rw [hmem]
          · exact ih _ _ _ _ hmem
        · simp at hmem

lemma jump_king_go_turn (s : State) : ∀ (fuel : Nat) (i j : Int) (b : Board),
    ∀ s' ∈ jump_king_go s fuel i j b, s'.next_turn = opp_piece s.next_turn := by
  intro fuel
  induction fuel with
  | zero => intro i j b s' h; simp [jump_king_go] at h
  | succ n ih =>
    intro i j b s' h
    rw [jump_king_go] at h
    split at h
    · simp at h
    · split at h
      · simp at h
        rw [h]
      · simp only [List.mem_flatten, List.mem_map] at h
        obtain ⟨l, ⟨d, _, rfl⟩, hmem⟩ := h
        split at hmem
        · exact ih _ _ _ _ hmem
        · simp at hmem

lemma jump_moves_turn (s : State) :
    ∀ s' ∈ s._generate_jump_moves, s'.next_turn = opp_piece s.next_turn := by
  intro s' h
  rw [State._generate_jump_moves] at h
  obtain ⟨l, hl, h⟩ := List.mem_flatten.mp h
  obtain ⟨i, _, rfl⟩ := List.mem_map.mp hl
  obtain ⟨l2, hl2, h⟩ := List.mem_flatten.mp h
  obtain ⟨j, _, rfl⟩ := List.mem_map.mp hl2
  split at h
  · simp only [State._generate_jump_moves_for_curr] at h
    split at h
    · exact jump_piece_go_turn s _ _ _ _ _ h
    · split at h
      · exact jump_king_go_turn s _ _ _ _ _ h
      · simp at h
  · simp at h

lemma simple_moves_turn (s : State) (next_player : Char) :
    ∀ s' ∈ s._generate_simple_moves next_player, s'.next_turn = get_next_turn next_player := by
  intro s' h
  rw [State._generate_simple_moves] at h
  obtain ⟨l, hl, h⟩ := List.mem_flatten.mp h
  obtain ⟨i, _, rfl⟩ := List.mem_map.mp hl
  obtain ⟨l2, hl2, h⟩ := List.mem_flatten.mp h
  obtain ⟨j, _, rfl⟩ := List.mem_map.mp hl2
  split at h
  · simp only [List.mem_flatten, List.mem_map] at h
    obtain ⟨l3, ⟨d, _, rfl⟩, h⟩ := h
    simp only [simple_piece_dir] at h
    split at h
    · split at h <;> · simp at h; rw [h]
    · simp at h
  · split at h
    · simp only [List.mem_flatten, List.mem_map] at h
      obtain ⟨l3, ⟨d, _, rfl⟩, h⟩ := h
      simp only [simple_king_dir] at h
      split at h
      · simp at h; rw [h]
      · simp at h
    · simp at h

/-- C10: every successor returned by `generate_successors` has `next_turn`
equal to the opponent of the input state's `next_turn` — the turn always
flips, including at the end of a multi-jump chain. -/
theorem generate_successors_turn_flips (s : State) :
    ∀ s' ∈ s.generate_successors, s'.next_turn = get_next_turn s.next_turn := by
  intro s' h
  rw [State.generate_successors] at h
  split at h
  · exact simple_moves_turn s s.next_turn s' h
  · have := jump_moves_turn s s' h
    simpa [opp_piece, get_next_turn] using this

/-- The double-jump-and-promote successor of `wJumpB`. -/
def wJumpSuccB : Board := mkB [
  "R.......",
  "........",
  "........",
  "........",
  "........",
  "........",
  "...r....",
  "........"]

/-- Witness for C10: a concrete successor of the capture board. -/
theorem generate_successors_turn_flips_w :
    (⟨wJumpSuccB, 'b'⟩ : State) ∈ (⟨wJumpB, 'r'⟩ : State).generate_successors ∧
    (⟨wJumpSuccB, 'b'⟩ : State).next_turn = get_next_turn 'r' :=
  ⟨by decide, generate_successors_turn_flips ⟨wJumpB, 'r'⟩ _ (by decide)⟩

end Checkers

namespace Checkers

/-! ### C2: the memoization depth guard -/

/-- C2: a stored entry for the `(board, turn)` key is returned exactly when
its recorded depth is at least the requested depth; an entry of smaller
recorded depth is ignored and the node recomputes (both search roles). -/
theorem cache_read_depth_guard (state : State) (turn : Char) (alpha beta : ℚ)
    (d : Nat) (cache : Cache) (e : CachedState)
    (hf : cfind cache (state.board, turn) = some e) :
    (d ≤ e.depth →
      alphabeta_max_node state turn alpha beta d cache = (e.v, e.successor, cache) ∧
      alphabeta_min_node state turn alpha beta d cache = (e.v, e.successor, cache)) ∧
    (e.depth < d →
      alphabeta_max_node state turn alpha beta d cache =
        alphabeta_max_recompute state turn alpha beta d cache ∧
      alphabeta_min_node state turn alpha beta d cache =
        alphabeta_min_recompute state turn alpha beta d cache) := by
  constructor
  · intro hd
    have hlook : cacheLookup cache (state.board, turn) d = some e := by
      simp [cacheLookup, hf, hd]
    constructor
    · rw [alphabeta_max_node.eq_def, hlook]
      rfl
    · rw [alphabeta_min_node.eq_def, hlook]
      rfl
  · intro hd
    have hlook : cacheLookup cache (state.board, turn) d = none := by
      simp [cacheLookup, hf]
      omega
    constructor
    · rw [alphabeta_max_node.eq_def, hlook]
      rfl
    · rw [alphabeta_min_node.eq_def, hlook]
      rfl

/-- Witness for C2: a table holding a depth-1 entry answers a depth-1 query
with the stored pair and forces recomputation on a depth-3 query. -/
theorem cache_read_depth_guard_w :
    alphabeta_max_node ⟨wJumpB, 'r'⟩ 'r' MIN_UTILITY MAX_UTILITY 1
        [((wJumpB, 'r'), ⟨5, 1, none⟩)] = (5, none, [((wJumpB, 'r'), ⟨5, 1, none⟩)]) ∧
    alphabeta_max_node ⟨wJumpB, 'r'⟩ 'r' MIN_UTILITY MAX_UTILITY 3
        [((wJumpB, 'r'), ⟨5, 1, none⟩)] =
      alphabeta_max_recompute ⟨wJumpB, 'r'⟩ 'r' MIN_UTILITY MAX_UTILITY 3
        [((wJumpB, 'r'), ⟨5, 1, none⟩)] :=
  ⟨((cache_read_depth_guard ⟨wJumpB, 'r'⟩ 'r' MIN_UTILITY MAX_UTILITY 1
      [((wJumpB, 'r'), ⟨5, 1, none⟩)] ⟨5, 1, none⟩ (by decide)).1 (by decide)).1,
   ((cache_read_depth_guard ⟨wJumpB, 'r'⟩ 'r' MIN_UTILITY MAX_UTILITY 3
      [((wJumpB, 'r'), ⟨5, 1, none⟩)] ⟨5, 1, none⟩ (by decide)).2 (by decide)).1⟩

/-! ### C8: move ordering by the static evaluator -/

/-- C8: the list the MAX role iterates is the successor set ordered by
descending static utility, and the MIN role's list is ordered by ascending
static utility (each a permutation of `generate_successors`). -/
theorem successor_ordering (state : State) :
    (max_node_order state).Perm state.generate_successors ∧
    List.Sorted (fun a b : State => b.get_utility ≤ a.get_utility) (max_node_order state) ∧
    (min_node_order state).Perm state.generate_successors ∧
    List.Sorted (fun a b : State => a.get_utility ≤ b.get_utility) (min_node_order state) := by
  haveI h1 : IsTotal State (fun a b : State => b.get_utility ≤ a.get_utility) :=
    ⟨fun a b => le_total b.get_utility a.get_utility⟩
  haveI h2 : IsTrans State (fun a b : State => b.get_utility ≤ a.get_utility) :=
    ⟨fun _ _ _ hab hbc => le_trans hbc hab⟩
  haveI h3 : IsTotal State (fun a b : State => a.get_utility ≤ b.get_utility) :=
    ⟨fun a b => le_total a.get_utility b.get_utility⟩
  haveI h4 : IsTrans State (fun a b : State => a.get_utility ≤ b.get_utility) :=
    ⟨fun _ _ _ hab hbc => le_trans hab hbc⟩
  exact ⟨List.perm_insertionSort _ _, List.sorted_insertionSort _ _,
    List.perm_insertionSort _ _, List.sorted_insertionSort _ _⟩

end Checkers

namespace Checkers

/-! ### C5: the non-terminal heuristic -/

lemma sum_ite_eq_countP {α : Type} (l : List α) (p : α → Bool) :
    (l.map fun a => if p a then 1 else 0).sum = l.countP p := by
  induction l with
  | nil => simp
  | cons a t ih =>
    by_cases h : p a <;> simp [List.countP_cons, h, ih, Nat.add_comm]

lemma nested_sum_eq_countP (f : Int → Int → Bool) :
    ((List.range 8).map fun i => ((List.range 8).map fun j =>
      if f (i : Int) (j : Int) then 1 else 0).sum).sum =
    allSquares.countP fun q => f q.1 q.2 := by
  rw [allSquares, List.countP_flatten, List.map_map]
  congr 1
  apply List.map_congr_left
  intro i _
  rw [Function.comp_apply, List.countP_map, ← sum_ite_eq_countP]
  apply congrArg
  apply List.map_congr_left
  intro j _
  rfl

lemma eval_params_pieces (s : State) (p : Char) :
    (s._get_evaluation_params p).1 = menCount s.board p := by
  simp only [State._get_evaluation_params]
  exact nested_sum_eq_countP _

lemma eval_params_kings (s : State) (p : Char) :
    (s._get_evaluation_params p).2.1 =
      kingCount s.board (if p == RED_PIECE then RED_KING else BLACK_KING) := by
  simp only [State._get_evaluation_params]
  exact nested_sum_eq_countP _

lemma eval_params_center (s : State) (p : Char) :
    (s._get_evaluation_params p).2.2.1 =
      centerCount s.board p (if p == RED_PIECE then RED_KING else BLACK_KING) := by
  simp only [State._get_evaluation_params]
  exact nested_sum_eq_countP _

lemma eval_params_edge (s : State) (p : Char) :
    (s._get_evaluation_params p).2.2.2.2.1 =
      edgeCount s.board p (if p == RED_PIECE then RED_KING else BLACK_KING) := by
  simp only [State._get_evaluation_params]
  exact nested_sum_eq_countP _

/-- C5: on every non-terminal state whose turn character is a real colour,
`get_utility` is exactly `(pieces + 2*kings + 0.5*center + 0.15*edge)` for
the player who just moved (the opposite of `next_turn`) minus the same
expression for `next_turn`'s side. -/
theorem get_utility_heuristic_formula (s : State)
    (hr : s.red_win = false) (hb : s.black_win = false)
    (ht : s.next_turn = RED_PIECE ∨ s.next_turn = BLACK_PIECE) :
    s.get_utility =
      (if s.next_turn = RED_PIECE then
        colorScore s.board BLACK_PIECE BLACK_KING - colorScore s.board RED_PIECE RED_KING
      else
        colorScore s.board RED_PIECE RED_KING - colorScore s.board BLACK_PIECE BLACK_KING) := by
  have e1 : (('r' : Char) == 'r') = true := rfl
  have e2 : (('b' : Char) == 'r') = false := rfl
  have e3 : (('b' : Char) == 'b') = true := rfl
  have e4 : (('r' : Char) == 'b') = false := rfl
  rcases ht with h | h <;>
    simp only [State.get_utility, h, hr, hb, RED_PIECE, BLACK_PIECE, RED_KING, BLACK_KING,
      e1, e2, e3, e4, Bool.false_and, Bool.and_false, Bool.true_and, Bool.and_true,
      if_true, if_false, ite_true, ite_false, Bool.false_or, Bool.or_false] <;>
    rw [eval_params_pieces, eval_params_kings, eval_params_center, eval_params_edge,
      eval_params_pieces, eval_params_kings, eval_params_center, eval_params_edge] <;>
    simp [RED_PIECE, BLACK_PIECE, RED_KING, BLACK_KING, e1, e2, e3, e4, colorScore]

/-- Witness for C5 on a concrete mid-game board. -/
theorem get_utility_heuristic_formula_w :
    (⟨wJumpB, 'r'⟩ : State).get_utility =
      colorScore wJumpB BLACK_PIECE BLACK_KING - colorScore wJumpB RED_PIECE RED_KING := by
  simpa [RED_PIECE] using
    get_utility_heuristic_formula ⟨wJumpB, 'r'⟩ (by decide) (by decide) (Or.inl rfl)

end Checkers

namespace Checkers

/-! ### C3: alpha-beta versus plain minimax -/

mutual

/-- Reference plain minimax, MAX role: same terminal test, same utility,
same successor generation as the search, but no ordering, no pruning and no
memoization. -/
def minimax_max (state : State) (current_depth : Nat) : ℚ :=
  if current_depth == 0 || state.red_win || state.black_win then state.get_utility
  else
    if (state.generate_successors).length == 0 then MIN_UTILITY
    else match current_depth with
      | 0 => state.get_utility
      | d + 1 =>
        ((state.generate_successors).map fun c => minimax_min c d).foldl max MIN_UTILITY
termination_by structural current_depth

/-- Reference plain minimax, MIN role. -/
def minimax_min (state : State) (current_depth : Nat) : ℚ :=
  if current_depth == 0 || state.red_win || state.black_win then state.get_utility
  else
    if (state.generate_successors).length == 0 then MAX_UTILITY
    else match current_depth with
      | 0 => state.get_utility
      | d + 1 =>
        ((state.generate_successors).map fun c => minimax_max c d).foldl min MAX_UTILITY
termination_by structural current_depth

end

/-- Loop state of the cache-free maximizing loop. -/
structure MaxAccNC where
  done : Bool
  v : ℚ
  best : State
  alpha : ℚ

/-- Loop state of the cache-free minimizing loop. -/
structure MinAccNC where
  done : Bool
  v : ℚ
  best : State
  beta : ℚ

/-- One iteration of the maximizing successor loop (cache-free), with the
recursive search on the child abstracted as `child`. -/
def abmax_step (child : State → ℚ → ℚ → ℚ × Option State) (beta : ℚ)
    (acc : MaxAccNC) (successor : State) : MaxAccNC :=
  if acc.done then acc
  else
    let tempval := (child successor acc.alpha beta).1
    let v' := if tempval > acc.v then tempval else acc.v
    let best' := if tempval > acc.v then successor else acc.best
    if tempval > beta then ⟨true, v', successor, acc.alpha⟩
    else ⟨false, v', best', max acc.alpha tempval⟩

/-- One iteration of the minimizing successor loop (cache-free). -/
def abmin_step (child : State → ℚ → ℚ → ℚ × Option State) (alpha : ℚ)
    (acc : MinAccNC) (successor : State) : MinAccNC :=
  if acc.done then acc
  else
    let tempval := (child successor alpha acc.beta).1
    let v' := if tempval < acc.v then tempval else acc.v
    let best' := if tempval < acc.v then successor else acc.best
    if tempval < alpha then ⟨true, v', successor, acc.beta⟩
    else ⟨false, v', best', min acc.beta tempval⟩

mutual

/-- `alphabeta_max_node` with the memoization table disabled: identical
terminal test, successor generation, ordering, iteration and pruning, but no
cache reads or writes. -/
def abmaxNC (state : State) (turn : Char) (alpha beta : ℚ) (current_depth : Nat) :
    ℚ × Option State :=
  if current_depth == 0 || state.red_win || state.black_win then (state.get_utility, none)
  else
    if (state.generate_successors).length == 0 then (MIN_UTILITY, none)
    else match current_depth with
      | 0 => (state.get_utility, none)
      | d + 1 =>
        let sorted := max_node_order state
        let acc := sorted.foldl
          (abmax_step (fun c a b => abminNC c (get_next_turn turn) a b d) beta)
          ⟨false, MIN_UTILITY, sorted.headD state, alpha⟩
        (acc.v, some acc.best)
termination_by structural current_depth

/-- `alphabeta_min_node` with the memoization table disabled. -/
def abminNC (state : State) (turn : Char) (alpha beta : ℚ) (current_depth : Nat) :
    ℚ × Option State :=
  if current_depth == 0 || state.red_win || state.black_win then (state.get_utility, none)
  else
    if (state.generate_successors).length == 0 then (MAX_UTILITY, none)
    else match current_depth with
      | 0 => (state.get_utility, none)
      | d + 1 =>
        let sorted := min_node_order state
        let acc := sorted.foldl
          (abmin_step (fun c a b => abmaxNC c (get_next_turn turn) a b d) alpha)
          ⟨false, MAX_UTILITY, sorted.headD state, beta⟩
        (acc.v, some acc.best)
termination_by structural current_depth

end

end Checkers

namespace Checkers

/-- Adjacent kings: memoization makes the search diverge from minimax. -/
def cexB : Board := mkB [
  ".B......",
  "R.......",
  "........",
  "........",
  "........",
  "........",
  "........",
  "........"]

set_option maxRecDepth 8000 in
/-- C3 counterexample: with the memoization table (initially empty, as at
process start), `alphabeta_max_node` at the full window does not return the
plain-minimax value of the same depth: on this board at depth 5 it returns
`MAX_UTILITY` while minimax returns `1/2`.  (A position reached by one line
is reached again at a shallower remaining depth by another line; the cached
entry, recorded at greater depth — and, after a cutoff, holding only a
partial bound — is returned as the exact value.) -/
theorem alphabeta_memo_neq_minimax :
    (alphabeta_max_node ⟨cexB, 'r'⟩ 'r' MIN_UTILITY MAX_UTILITY 5 []).1 ≠
      minimax_max ⟨cexB, 'r'⟩ 5 := by decide

end Checkers

namespace Checkers

/-! ### Bounds and fold lemmas for the equivalence proof -/

lemma count_le_64 (p : (Int × Int) → Bool) : allSquares.countP p ≤ 64 :=
  le_trans (List.countP_le_length p) (by decide : allSquares.length ≤ 64)

lemma menCount_le (b : Board) (p : Char) : menCount b p ≤ 64 := count_le_64 _

lemma kingCount_le (b : Board) (k : Char) : kingCount b k ≤ 64 := count_le_64 _

lemma centerCount_le (b : Board) (p k : Char) : centerCount b p k ≤ 64 := count_le_64 _

lemma edgeCount_le (b : Board) (p k : Char) : edgeCount b p k ≤ 64 := count_le_64 _

lemma heuristic_bounds {a b c d e f g h : Nat}
    (ha : a ≤ 64) (hb : b ≤ 64) (hc : c ≤ 64) (hd : d ≤ 64)
    (he : e ≤ 64) (hf : f ≤ 64) (hg : g ≤ 64) (hh : h ≤ 64) :
    MIN_UTILITY ≤ ((a : ℚ) + 2 * (b : ℚ) + 0.5 * (c : ℚ) + 0.15 * (d : ℚ)) -
      ((e : ℚ) + 2 * (f : ℚ) + 0.5 * (g : ℚ) + 0.15 * (h : ℚ)) ∧
    ((a : ℚ) + 2 * (b : ℚ) + 0.5 * (c : ℚ) + 0.15 * (d : ℚ)) -
      ((e : ℚ) + 2 * (f : ℚ) + 0.5 * (g : ℚ) + 0.15 * (h : ℚ)) ≤ MAX_UTILITY := by
  have ca : (a : ℚ) ≤ 64 := by exact_mod_cast ha
  have cb : (b : ℚ) ≤ 64 := by exact_mod_cast hb
  have cc : (c : ℚ) ≤ 64 := by exact_mod_cast hc
  have cd : (d : ℚ) ≤ 64 := by exact_mod_cast hd
  have ce : (e : ℚ) ≤ 64 := by exact_mod_cast he
  have cf : (f : ℚ) ≤ 64 := by exact_mod_cast hf
  have cg : (g : ℚ) ≤ 64 := by exact_mod_cast hg
  have ch : (h : ℚ) ≤ 64 := by exact_mod_cast hh
  have pa : (0 : ℚ) ≤ (a : ℚ) := Nat.cast_nonneg a
  have pb : (0 : ℚ) ≤ (b : ℚ) := Nat.cast_nonneg b
  have pc : (0 : ℚ) ≤ (c : ℚ) := Nat.cast_nonneg c
  have pd : (0 : ℚ) ≤ (d : ℚ) := Nat.cast_nonneg d
  have pe : (0 : ℚ) ≤ (e : ℚ) := Nat.cast_nonneg e
  have pf : (0 : ℚ) ≤ (f : ℚ) := Nat.cast_nonneg f
  have pg : (0 : ℚ) ≤ (g : ℚ) := Nat.cast_nonneg g
  have ph : (0 : ℚ) ≤ (h : ℚ) := Nat.cast_nonneg h
  constructor <;>
  · simp only [show (0.5 : ℚ) = 1/2 from by norm_num,
      show (0.15 : ℚ) = 3/20 from by norm_num, MIN_UTILITY, MAX_UTILITY]
    linarith

/-- All utilities are within the terminal extremes. -/
lemma get_utility_bounds (s : State) :
    MIN_UTILITY ≤ s.get_utility ∧ s.get_utility ≤ MAX_UTILITY := by
  rw [State.get_utility]
  split
  · norm_num [MIN_UTILITY, MAX_UTILITY]
  split
  · norm_num [MIN_UTILITY, MAX_UTILITY]
  split
  · norm_num [MIN_UTILITY, MAX_UTILITY]
  split
  · norm_num [MIN_UTILITY, MAX_UTILITY]
  dsimp only
  rw [eval_params_pieces, eval_params_kings, eval_params_center, eval_params_edge,
    eval_params_pieces, eval_params_kings, eval_params_center, eval_params_edge]
  exact heuristic_bounds (menCount_le _ _) (kingCount_le _ _) (centerCount_le _ _ _)
    (edgeCount_le _ _ _) (menCount_le _ _) (kingCount_le _ _) (centerCount_le _ _ _)
    (edgeCount_le _ _ _)

end Checkers

namespace Checkers

lemma foldl_maxf_init_le {α : Type} (f : α → ℚ) :
    ∀ (l : List α) (i : ℚ), i ≤ l.foldl (fun a c => max a (f c)) i := by
  intro l
  induction l with
  | nil => intro i; exact le_refl i
  | cons c t ih =>
    intro i
    exact le_trans (le_max_left i (f c)) (ih (max i (f c)))

lemma foldl_maxf_mem_le {α : Type} (f : α → ℚ) :
    ∀ (l : List α) (i : ℚ) (x : α), x ∈ l → f x ≤ l.foldl (fun a c => max a (f c)) i := by
  intro l
  induction l with
  | nil => intro i x hx; simp at hx
  | cons c t ih =>
    intro i x hx
    rcases List.mem_cons.mp hx with h | h
    · subst h
      exact le_trans (le_max_right i (f x)) (foldl_maxf_init_le f t _)
    · exact ih _ x h

lemma foldl_maxf_le {α : Type} (f : α → ℚ) :
    ∀ (l : List α) (i u : ℚ), i ≤ u → (∀ x ∈ l, f x ≤ u) →
      l.foldl (fun a c => max a (f c)) i ≤ u := by
  intro l
  induction l with
  | nil => intro i u hi _; exact hi
  | cons c t ih =>
    intro i u hi hm
    exact ih _ u (max_le hi (hm c (List.mem_cons_self c t)))
      fun x hx => hm x (List.mem_cons_of_mem c hx)

lemma foldl_minf_le_init {α : Type} (f : α → ℚ) :
    ∀ (l : List α) (i : ℚ), l.foldl (fun a c => min a (f c)) i ≤ i := by
  intro l
  induction l with
  | nil => intro i; exact le_refl i
  | cons c t ih =>
    intro i
    exact le_trans (ih (min i (f c))) (min_le_left i (f c))

lemma foldl_minf_le_mem {α : Type} (f : α → ℚ) :
    ∀ (l : List α) (i : ℚ) (x : α), x ∈ l → l.foldl (fun a c => min a (f c)) i ≤ f x := by
  intro l
  induction l with
  | nil => intro i x hx; simp at hx
  | cons c t ih =>
    intro i x hx
    rcases List.mem_cons.mp hx with h | h
    · subst h
      exact le_trans (foldl_minf_le_init f t _) (min_le_right i (f x))
    · exact ih _ x h

lemma le_foldl_minf {α : Type} (f : α → ℚ) :
    ∀ (l : List α) (i u : ℚ), u ≤ i → (∀ x ∈ l, u ≤ f x) →
      u ≤ l.foldl (fun a c => min a (f c)) i := by
  intro l
  induction l with
  | nil => intro i u hi _; exact hi
  | cons c t ih =>
    intro i u hi hm
    exact ih _ u (le_min hi (hm c (List.mem_cons_self c t)))
      fun x hx => hm x (List.mem_cons_of_mem c hx)

lemma MIN_le_MAX : MIN_UTILITY ≤ MAX_UTILITY := by norm_num [MIN_UTILITY, MAX_UTILITY]

/-- Minimax values stay within the terminal extremes. -/
lemma minimax_bounds : ∀ (d : Nat) (s : State),
    (MIN_UTILITY ≤ minimax_max s d ∧ minimax_max s d ≤ MAX_UTILITY) ∧
    (MIN_UTILITY ≤ minimax_min s d ∧ minimax_min s d ≤ MAX_UTILITY) := by
  intro d
  induction d with
  | zero =>
    intro s
    refine ⟨?_, ?_⟩
    · rw [minimax_max.eq_def]; simp [get_utility_bounds s]
    · rw [minimax_min.eq_def]; simp [get_utility_bounds s]
  | succ e ih =>
    intro s
    constructor
    · rw [minimax_max.eq_def]
      split
      · exact get_utility_bounds s
      split
      · exact ⟨le_refl _, MIN_le_MAX⟩
      dsimp only
      rw [List.foldl_map]
      constructor
      · exact foldl_maxf_init_le _ _ _
      · exact foldl_maxf_le _ _ _ _ MIN_le_MAX fun x _ => ((ih x).2).2
    · rw [minimax_min.eq_def]
      split
      · exact get_utility_bounds s
      split
      · exact ⟨MIN_le_MAX, le_refl _⟩
      dsimp only
      rw [List.foldl_map]
      constructor
      · exact le_foldl_minf _ _ _ _ MIN_le_MAX fun x _ => ((ih x).1).1
      · exact foldl_minf_le_init _ _ _

end Checkers

namespace Checkers

lemma foldl_abmax_step_done (child : State → ℚ → ℚ → ℚ × Option State) (β : ℚ) :
    ∀ (L : List State) (acc : MaxAccNC), acc.done = true →
      L.foldl (abmax_step child β) acc = acc := by
  intro L
  induction L with
  | nil => intro acc _; rfl
  | cons c t ih =>
    intro acc h
    rw [List.foldl_cons, abmax_step, if_pos h]
    exact ih acc h

/-- Fail-soft specification of the maximizing successor loop: relative to the
window `(α₀, β)`, the loop's running maximum is an upper bound, the exact
value, or a lower bound of the true minimax maximum, according to where it
falls. -/
lemma abmax_loop_spec (child : State → ℚ → ℚ → ℚ × Option State) (β : ℚ)
    (mval : State → ℚ)
    (hchild : ∀ (c : State) (a : ℚ), a ≤ β →
      ((child c a β).1 ≤ a → mval c ≤ (child c a β).1) ∧
      (a ≤ (child c a β).1 → (child c a β).1 ≤ β → mval c = (child c a β).1) ∧
      (β < (child c a β).1 → (child c a β).1 ≤ mval c))
    (α₀ : ℚ) (hab : α₀ ≤ β) :
    ∀ (L : List State) (v : ℚ) (best : State) (alpha mpre : ℚ),
      MIN_UTILITY ≤ v → v ≤ max MIN_UTILITY β → mpre ≤ v → (α₀ ≤ v → v ≤ mpre) →
      MIN_UTILITY ≤ mpre → α₀ ≤ alpha → alpha ≤ max α₀ v → alpha ≤ β →
      ((L.foldl (abmax_step child β) ⟨false, v, best, alpha⟩).v ≤ α₀ →
        L.foldl (fun a c => max a (mval c)) mpre ≤
          (L.foldl (abmax_step child β) ⟨false, v, best, alpha⟩).v) ∧
      (α₀ ≤ (L.foldl (abmax_step child β) ⟨false, v, best, alpha⟩).v →
        (L.foldl (abmax_step child β) ⟨false, v, best, alpha⟩).v ≤ β →
        L.foldl (fun a c => max a (mval c)) mpre =
          (L.foldl (abmax_step child β) ⟨false, v, best, alpha⟩).v) ∧
      (β < (L.foldl (abmax_step child β) ⟨false, v, best, alpha⟩).v →
        (L.foldl (abmax_step child β) ⟨false, v, best, alpha⟩).v ≤
          L.foldl (fun a c => max a (mval c)) mpre) := by
  intro L
  induction L with
  | nil =>
    intro v best alpha mpre h1 h2 h3 h4 h5 h6 h7 h8
    refine ⟨fun _ => h3, fun hv _ => le_antisymm h3 (h4 hv), fun hv => ?_⟩
    rcases max_cases MIN_UTILITY β with ⟨hm, hβ⟩ | ⟨hm, _⟩
    · have hv' : v = MIN_UTILITY := le_antisymm (by rw [hm] at h2; exact h2) h1
      rw [hv']
      exact h5
    · rw [hm] at h2
      exact absurd h2 (not_le.mpr hv)
  | cons c L ih =>
    intro v best alpha mpre h1 h2 h3 h4 h5 h6 h7 h8
    rw [List.foldl_cons, List.foldl_cons]
    have hch := hchild c alpha h8
    by_cases hcut : β < (child c alpha β).1
    · have hstep : abmax_step child β ⟨false, v, best, alpha⟩ c =
          ⟨true, if (child c alpha β).1 > v then (child c alpha β).1 else v, c, alpha⟩ := by
        simp only [abmax_step, Bool.false_eq_true, if_false, if_pos hcut]
      rw [hstep, foldl_abmax_step_done child β L _ rfl]
      dsimp only
      have htv' : (child c alpha β).1 ≤
          (if (child c alpha β).1 > v then (child c alpha β).1 else v) := by
        split
        · exact le_refl _
        · exact le_of_not_lt ‹_›
      have hβr : β < (if (child c alpha β).1 > v then (child c alpha β).1 else v) :=
        lt_of_lt_of_le hcut htv'
      refine ⟨fun hle => absurd (le_trans hle hab) (not_le.mpr hβr),
        fun _ hle => absurd hle (not_le.mpr hβr), fun _ => ?_⟩
      have hmc : (child c alpha β).1 ≤ mval c := hch.2.2 hcut
      have hmcM : mval c ≤ L.foldl (fun a c => max a (mval c)) (max mpre (mval c)) :=
        le_trans (le_max_right _ _) (foldl_maxf_init_le _ _ _)
      have hvM : v ≤ L.foldl (fun a c => max a (mval c)) (max mpre (mval c)) := by
        rcases max_cases MIN_UTILITY β with ⟨hm, _⟩ | ⟨hm, _⟩
        · have hv' : v = MIN_UTILITY := le_antisymm (by rw [hm] at h2; exact h2) h1
          rw [hv']
          exact le_trans h5 (le_trans (le_max_left _ _) (foldl_maxf_init_le _ _ _))
        · rw [hm] at h2
          exact le_trans h2 (le_trans (le_of_lt hcut) (le_trans hmc hmcM))
      by_cases hx : (child c alpha β).1 > v
      · rw [if_pos hx]
        exact le_trans hmc hmcM
      · rw [if_neg hx]
        exact hvM
    · have hstep : abmax_step child β ⟨false, v, best, alpha⟩ c =
          ⟨false, if (child c alpha β).1 > v then (child c alpha β).1 else v,
            if (child c alpha β).1 > v then c else best,
            max alpha (child c alpha β).1⟩ := by
        simp only [abmax_step, Bool.false_eq_true, if_false, if_neg hcut]
      rw [hstep]
      have hno : (child c alpha β).1 ≤ β := le_of_not_lt hcut
      have htv' : (child c alpha β).1 ≤
          (if (child c alpha β).1 > v then (child c alpha β).1 else v) := by
        split
        · exact le_refl _
        · exact le_of_not_lt ‹_›
      have hvv' : v ≤ (if (child c alpha β).1 > v then (child c alpha β).1 else v) := by
        split
        · exact le_of_lt ‹_›
        · exact le_refl _
      have hmcv' : mval c ≤ (if (child c alpha β).1 > v then (child c alpha β).1 else v) := by
        by_cases hta : (child c alpha β).1 ≤ alpha
        · exact le_trans (hch.1 hta) htv'
        · exact le_trans (le_of_eq (hch.2.1 (le_of_not_le hta) hno)) htv'
      exact ih (if (child c alpha β).1 > v then (child c alpha β).1 else v)
        (if (child c alpha β).1 > v then c else best)
        (max alpha (child c alpha β).1) (max mpre (mval c))
        (le_trans h1 hvv')
        (by
          by_cases hx : (child c alpha β).1 > v
          · rw [if_pos hx]
            exact le_trans hno (le_max_right _ _)
          · rw [if_neg hx]
            exact h2)
        (max_le (le_trans h3 hvv') hmcv')
        (by
          intro hα₀v'
          by_cases hx : (child c alpha β).1 > v
          · rw [if_pos hx] at hα₀v' ⊢
            have halpha_t : alpha ≤ (child c alpha β).1 :=
              le_trans h7 (max_le hα₀v' (le_of_lt hx))
            rw [← hch.2.1 halpha_t hno]
            exact le_max_right _ _
          · rw [if_neg hx] at hα₀v' ⊢
            exact le_trans (h4 hα₀v') (le_max_left _ _))
        (le_trans h5 (le_max_left _ _))
        (le_trans h6 (le_max_left _ _))
        (max_le (le_trans h7 (max_le_max (le_refl _) hvv')) (le_trans htv' (le_max_right _ _)))
        (max_le h8 hno)

end Checkers

namespace Checkers

lemma foldl_abmin_step_done (child : State → ℚ → ℚ → ℚ × Option State) (α : ℚ) :
    ∀ (L : List State) (acc : MinAccNC), acc.done = true →
      L.foldl (abmin_step child α) acc = acc := by
  intro L
  induction L with
  | nil => intro acc _; rfl
  | cons c t ih =>
    intro acc h
    rw [List.foldl_cons, abmin_step, if_pos h]
    exact ih acc h

/-- Fail-soft specification of the minimizing successor loop (mirror of
`abmax_loop_spec`). -/
lemma abmin_loop_spec (child : State → ℚ → ℚ → ℚ × Option State) (α : ℚ)
    (mval : State → ℚ)
    (hchild : ∀ (c : State) (b : ℚ), α ≤ b →
      ((child c α b).1 ≤ α → mval c ≤ (child c α b).1) ∧
      (α ≤ (child c α b).1 → (child c α b).1 ≤ b → mval c = (child c α b).1) ∧
      (b < (child c α b).1 → (child c α b).1 ≤ mval c))
    (β₀ : ℚ) (hab : α ≤ β₀) :
    ∀ (L : List State) (v : ℚ) (best : State) (beta mpre : ℚ),
      v ≤ MAX_UTILITY → min MAX_UTILITY α ≤ v → v ≤ mpre → (v ≤ β₀ → mpre ≤ v) →
      mpre ≤ MAX_UTILITY → beta ≤ β₀ → min β₀ v ≤ beta → α ≤ beta →
      ((β₀ ≤ (L.foldl (abmin_step child α) ⟨false, v, best, beta⟩).v →
        (L.foldl (abmin_step child α) ⟨false, v, best, beta⟩).v ≤
          L.foldl (fun a c => min a (mval c)) mpre) ∧
      (α ≤ (L.foldl (abmin_step child α) ⟨false, v, best, beta⟩).v →
        (L.foldl (abmin_step child α) ⟨false, v, best, beta⟩).v ≤ β₀ →
        L.foldl (fun a c => min a (mval c)) mpre =
          (L.foldl (abmin_step child α) ⟨false, v, best, beta⟩).v) ∧
      ((L.foldl (abmin_step child α) ⟨false, v, best, beta⟩).v < α →
        L.foldl (fun a c => min a (mval c)) mpre ≤
          (L.foldl (abmin_step child α) ⟨false, v, best, beta⟩).v)) := by
  intro L
  induction L with
  | nil =>
    intro v best beta mpre h1 h2 h3 h4 h5 h6 h7 h8
    refine ⟨fun hv => h3, fun hv hv' => le_antisymm (h4 hv') h3, fun hv => ?_⟩
    rcases min_cases MAX_UTILITY α with ⟨hm, hα⟩ | ⟨hm, _⟩
    · have hv' : v = MAX_UTILITY := le_antisymm h1 (by rw [hm] at h2; exact h2)
      rw [hv']
      exact h5
    · rw [hm] at h2
      exact absurd h2 (not_le.mpr hv)
  | cons c L ih =>
    intro v best beta mpre h1 h2 h3 h4 h5 h6 h7 h8
    rw [List.foldl_cons, List.foldl_cons]
    have hch := hchild c beta h8
    by_cases hcut : (child c α beta).1 < α
    · have hstep : abmin_step child α ⟨false, v, best, beta⟩ c =
          ⟨true, if (child c α beta).1 < v then (child c α beta).1 else v, c, beta⟩ := by
        simp only [abmin_step, Bool.false_eq_true, if_false, if_pos hcut]
      rw [hstep, foldl_abmin_step_done child α L _ rfl]
      dsimp only
      have htv' : (if (child c α beta).1 < v then (child c α beta).1 else v) ≤
          (child c α beta).1 := by
        split
        · exact le_refl _
        · exact le_of_not_lt ‹_›
      have hαr : (if (child c α beta).1 < v then (child c α beta).1 else v) < α :=
        lt_of_le_of_lt htv' hcut
      refine ⟨fun hle => absurd (le_trans hab hle) (not_le.mpr hαr),
        fun hle _ => absurd hle (not_le.mpr hαr), fun _ => ?_⟩
      have hmc : mval c ≤ (child c α beta).1 := hch.1 (le_of_lt hcut)
      have hmcM : L.foldl (fun a c => min a (mval c)) (min mpre (mval c)) ≤ mval c :=
        le_trans (foldl_minf_le_init _ _ _) (min_le_right _ _)
      have hvM : L.foldl (fun a c => min a (mval c)) (min mpre (mval c)) ≤ v := by
        rcases min_cases MAX_UTILITY α with ⟨hm, _⟩ | ⟨hm, _⟩
        · have hv' : v = MAX_UTILITY := le_antisymm h1 (by rw [hm] at h2; exact h2)
          rw [hv']
          exact le_trans (le_trans (foldl_minf_le_init _ _ _) (min_le_left _ _)) h5
        · rw [hm] at h2
          exact le_trans (le_trans hmcM hmc) (le_trans (le_of_lt hcut) h2)
      by_cases hx : (child c α beta).1 < v
      · rw [if_pos hx]
        exact le_trans hmcM hmc
      · rw [if_neg hx]
        exact hvM
    · have hstep : abmin_step child α ⟨false, v, best, beta⟩ c =
          ⟨false, if (child c α beta).1 < v then (child c α beta).1 else v,
            if (child c α beta).1 < v then c else best,
            min beta (child c α beta).1⟩ := by
        simp only [abmin_step, Bool.false_eq_true, if_false, if_neg hcut]
      rw [hstep]
      have hno : α ≤ (child c α beta).1 := le_of_not_lt hcut
      have htv' : (if (child c α beta).1 < v then (child c α beta).1 else v) ≤
          (child c α beta).1 := by
        split
        · exact le_refl _
        · exact le_of_not_lt ‹_›
      have hvv' : (if (child c α beta).1 < v then (child c α beta).1 else v) ≤ v := by
        split
        · exact le_of_lt ‹_›
        · exact le_refl _
      have hmcv' : (if (child c α beta).1 < v then (child c α beta).1 else v) ≤ mval c := by
        by_cases htb : beta < (child c α beta).1
        · exact le_trans htv' (hch.2.2 htb)
        · exact le_trans htv' (le_of_eq (hch.2.1 hno (le_of_not_lt htb)).symm)
      exact ih (if (child c α beta).1 < v then (child c α beta).1 else v)
        (if (child c α beta).1 < v then c else best)
        (min beta (child c α beta).1) (min mpre (mval c))
        (le_trans hvv' h1)
        (by
          by_cases hx : (child c α beta).1 < v
          · rw [if_pos hx]
            exact le_trans (min_le_right _ _) hno
          · rw [if_neg hx]
            exact h2)
        (le_min (le_trans hvv' h3) hmcv')
        (by
          intro hv'β₀
          by_cases hx : (child c α beta).1 < v
          · rw [if_pos hx] at hv'β₀ ⊢
            have ht_beta : (child c α beta).1 ≤ beta :=
              le_trans (le_min hv'β₀ (le_of_lt hx)) h7
            rw [← hch.2.1 hno ht_beta]
            exact min_le_right _ _
          · rw [if_neg hx] at hv'β₀ ⊢
            exact le_trans (min_le_left _ _) (h4 hv'β₀))
        (le_trans (min_le_left _ _) h5)
        (le_trans (min_le_left _ _) h6)
        (le_min (le_trans (min_le_min (le_refl _) hvv') h7) (le_trans (min_le_right _ _) htv'))
        (le_min h8 hno)

end Checkers

namespace Checkers

lemma spec_triple_of_eq {v m α β : ℚ} (hv : v = m) :
    (v ≤ α → m ≤ v) ∧ (α ≤ v → v ≤ β → m = v) ∧ (β < v → v ≤ m) :=
  ⟨fun _ => le_of_eq hv.symm, fun _ _ => hv.symm, fun _ => le_of_eq hv⟩

lemma spec_triple_of_eq' {v m α β : ℚ} (hv : v = m) :
    (β ≤ v → v ≤ m) ∧ (α ≤ v → v ≤ β → m = v) ∧ (v < α → m ≤ v) :=
  ⟨fun _ => le_of_eq hv, fun _ _ => hv.symm, fun _ => le_of_eq hv.symm⟩

/-- The fail-soft correctness of the cache-free alpha-beta search relative
to plain minimax, at every window and depth. -/
lemma abNC_minimax_spec : ∀ (d : Nat),
    (∀ (st : State) (turn : Char) (α β : ℚ), α ≤ β →
      ((abmaxNC st turn α β d).1 ≤ α → minimax_max st d ≤ (abmaxNC st turn α β d).1) ∧
      (α ≤ (abmaxNC st turn α β d).1 → (abmaxNC st turn α β d).1 ≤ β →
        minimax_max st d = (abmaxNC st turn α β d).1) ∧
      (β < (abmaxNC st turn α β d).1 → (abmaxNC st turn α β d).1 ≤ minimax_max st d)) ∧
    (∀ (st : State) (turn : Char) (α β : ℚ), α ≤ β →
      (β ≤ (abminNC st turn α β d).1 → (abminNC st turn α β d).1 ≤ minimax_min st d) ∧
      (α ≤ (abminNC st turn α β d).1 → (abminNC st turn α β d).1 ≤ β →
        minimax_min st d = (abminNC st turn α β d).1) ∧
      ((abminNC st turn α β d).1 < α → minimax_min st d ≤ (abminNC st turn α β d).1)) := by
  intro d
  induction d with
  | zero =>
    constructor
    · intro st turn α β _
      refine spec_triple_of_eq ?_
      rw [abmaxNC.eq_def, minimax_max.eq_def]
      simp
    · intro st turn α β _
      refine spec_triple_of_eq' ?_
      rw [abminNC.eq_def, minimax_min.eq_def]
      simp
  | succ e ih =>
    constructor
    · intro st turn α β hab
      by_cases hterm : ((e + 1 : Nat) == 0 || st.red_win || st.black_win) = true
      · refine spec_triple_of_eq ?_
        rw [abmaxNC.eq_def, minimax_max.eq_def, if_pos hterm, if_pos hterm]
      by_cases hsucc : ((st.generate_successors).length == 0) = true
      · refine spec_triple_of_eq ?_
        rw [abmaxNC.eq_def, minimax_max.eq_def, if_neg hterm, if_neg hterm,
          if_pos hsucc, if_pos hsucc]
      have hub : (abmaxNC st turn α β (e + 1)).1 =
          ((max_node_order st).foldl
            (abmax_step (fun c a b => abminNC c (get_next_turn turn) a b e) β)
            ⟨false, MIN_UTILITY, (max_node_order st).headD st, α⟩).v := by
        rw [abmaxNC.eq_def, if_neg hterm, if_neg hsucc]
      have hm : minimax_max st (e + 1) =
          (max_node_order st).foldl (fun a c => max a (minimax_min c e)) MIN_UTILITY := by
        rw [minimax_max.eq_def, if_neg hterm, if_neg hsucc]
        dsimp only
        rw [List.foldl_map]
        haveI : RightCommutative (fun (a : ℚ) (c : State) => max a (minimax_min c e)) :=
          ⟨fun b a1 a2 => by
            show max (max b (minimax_min a1 e)) (minimax_min a2 e) =
              max (max b (minimax_min a2 e)) (minimax_min a1 e)
            rw [max_assoc, max_comm (minimax_min a1 e), ← max_assoc]⟩
        exact ((List.perm_insertionSort _ st.generate_successors).foldl_eq MIN_UTILITY).symm
      have hchild : ∀ (c : State) (a : ℚ), a ≤ β →
          ((abminNC c (get_next_turn turn) a β e).1 ≤ a →
            minimax_min c e ≤ (abminNC c (get_next_turn turn) a β e).1) ∧
          (a ≤ (abminNC c (get_next_turn turn) a β e).1 →
            (abminNC c (get_next_turn turn) a β e).1 ≤ β →
            minimax_min c e = (abminNC c (get_next_turn turn) a β e).1) ∧
          (β < (abminNC c (get_next_turn turn) a β e).1 →
            (abminNC c (get_next_turn turn) a β e).1 ≤ minimax_min c e) := by
        intro c a hb
        have hq := ih.2 c (get_next_turn turn) a β hb
        refine ⟨fun hva => ?_, hq.2.1, fun hbv => hq.1 (le_of_lt hbv)⟩
        rcases lt_or_eq_of_le hva with hlt | heq
        · exact hq.2.2 hlt
        · exact le_of_eq (hq.2.1 (le_of_eq heq.symm) (le_trans hva hb))
      have hloop := abmax_loop_spec
        (fun c a b => abminNC c (get_next_turn turn) a b e) β
        (fun c => minimax_min c e) hchild α hab (max_node_order st) MIN_UTILITY
        ((max_node_order st).headD st) α MIN_UTILITY
        (le_refl _) (le_max_left _ _) (le_refl _) (fun _ => le_refl _)
        (le_refl _) (le_refl _) (le_max_left _ _) hab
      rw [hub, hm]
      exact hloop
    · intro st turn α β hab
      by_cases hterm : ((e + 1 : Nat) == 0 || st.red_win || st.black_win) = true
      · refine spec_triple_of_eq' ?_
        rw [abminNC.eq_def, minimax_min.eq_def, if_pos hterm, if_pos hterm]
      by_cases hsucc : ((st.generate_successors).length == 0) = true
      · refine spec_triple_of_eq' ?_
        rw [abminNC.eq_def, minimax_min.eq_def, if_neg hterm, if_neg hterm,
          if_pos hsucc, if_pos hsucc]
      have hub : (abminNC st turn α β (e + 1)).1 =
          ((min_node_order st).foldl
            (abmin_step (fun c a b => abmaxNC c (get_next_turn turn) a b e) α)
            ⟨false, MAX_UTILITY, (min_node_order st).headD st, β⟩).v := by
        rw [abminNC.eq_def, if_neg hterm, if_neg hsucc]
      have hm : minimax_min st (e + 1) =
          (min_node_order st).foldl (fun a c => min a (minimax_max c e)) MAX_UTILITY := by
        rw [minimax_min.eq_def, if_neg hterm, if_neg hsucc]
        dsimp only
        rw [List.foldl_map]
        haveI : RightCommutative (fun (a : ℚ) (c : State) => min a (minimax_max c e)) :=
          ⟨fun b a1 a2 => by
            show min (min b (minimax_max a1 e)) (minimax_max a2 e) =
              min (min b (minimax_max a2 e)) (minimax_max a1 e)
            rw [min_assoc, min_comm (minimax_max a1 e), ← min_assoc]⟩
        exact ((List.perm_insertionSort _ st.generate_successors).foldl_eq MAX_UTILITY).symm
      have hchild : ∀ (c : State) (b : ℚ), α ≤ b →
          ((abmaxNC c (get_next_turn turn) α b e).1 ≤ α →
            minimax_max c e ≤ (abmaxNC c (get_next_turn turn) α b e).1) ∧
          (α ≤ (abmaxNC c (get_next_turn turn) α b e).1 →
            (abmaxNC c (get_next_turn turn) α b e).1 ≤ b →
            minimax_max c e = (abmaxNC c (get_next_turn turn) α b e).1) ∧
          (b < (abmaxNC c (get_next_turn turn) α b e).1 →
            (abmaxNC c (get_next_turn turn) α b e).1 ≤ minimax_max c e) := by
        intro c b hb
        exact ih.1 c (get_next_turn turn) α b hb
      have hloop := abmin_loop_spec
        (fun c a b => abmaxNC c (get_next_turn turn) a b e) α
        (fun c => minimax_max c e) hchild β hab (min_node_order st) MAX_UTILITY
        ((min_node_order st).headD st) β MAX_UTILITY
        (le_refl _) (min_le_left _ _) (le_refl _) (fun _ => le_refl _)
        (le_refl _) (le_refl _) (min_le_left _ _) hab
      rw [hub, hm]
      exact hloop

end Checkers

namespace Checkers

/-- C3 (amended): with the memoization disabled, `abmaxNC` — the alpha-beta
search with the same terminal test, utility, successor generation and
ordering as `alphabeta_max_node`, and with pruning intact — called with the
full window returns exactly the plain-minimax value, for every state, turn
and depth. -/
theorem alphabeta_pure_eq_minimax (st : State) (turn : Char) (d : Nat) :
    (abmaxNC st turn MIN_UTILITY MAX_UTILITY d).1 = minimax_max st d := by
  have hs := (abNC_minimax_spec d).1 st turn MIN_UTILITY MAX_UTILITY MIN_le_MAX
  have hmb := (minimax_bounds d st).1
  rcases le_or_lt (abmaxNC st turn MIN_UTILITY MAX_UTILITY d).1 MIN_UTILITY with hle | hgt
  · exact le_antisymm (le_trans hle hmb.1) (hs.1 hle)
  rcases le_or_lt (abmaxNC st turn MIN_UTILITY MAX_UTILITY d).1 MAX_UTILITY with hle2 | hgt2
  · exact (hs.2.1 (le_of_lt hgt) hle2).symm
  · exact absurd (le_trans (hs.2.2 hgt2) hmb.2) (not_le.mpr hgt2)

end Checkers

namespace Checkers

/-! ### Adequacy of the fuel instantiation in jump generation

The Python recursion terminates because every chained jump removes one
opponent piece; the lemmas below make that argument formal: the result of
`jump_piece_go`/`jump_king_go` is the same for every fuel strictly above the
opponent piece count, so the wrapper's `countOppB + 1` loses nothing. -/

lemma countP_set_le (p : Char → Bool) (c : Char) (hc : p c = false) :
    ∀ (row : List Char) (m : Nat), (row.set m c).countP p ≤ row.countP p := by
  intro row
  induction row with
  | nil => intro m; simp
  | cons a t ih =>
    intro m
    cases m with
    | zero => simp [List.countP_cons, hc]
    | succ m =>
      rw [show (a :: t).set (m + 1) c = a :: t.set m c from rfl]
      simp only [List.countP_cons]
      exact Nat.add_le_add_right (ih m) _

lemma countP_set_lt (p : Char → Bool) (c dflt : Char) (hc : p c = false) (hd : p dflt = false) :
    ∀ (row : List Char) (m : Nat), p (row.getD m dflt) = true →
      (row.set m c).countP p < row.countP p := by
  intro row
  induction row with
  | nil => intro m hm; rw [List.getD_nil] at hm; rw [hm] at hd; exact absurd hd (by simp)
  | cons a t ih =>
    intro m hm
    cases m with
    | zero =>
      rw [List.getD_cons_zero] at hm
      simp [List.countP_cons, hc, hm]
    | succ m =>
      rw [List.getD_cons_succ] at hm
      rw [show (a :: t).set (m + 1) c = a :: t.set m c from rfl]
      simp only [List.countP_cons]
      exact Nat.add_lt_add_right (ih m hm) _

end Checkers

namespace Checkers

lemma countOppB_set_le (p k c : Char) (hc : (c == p || c == k) = false) :
    ∀ (b : Board) (n m : Nat),
      countOppB (b.set n ((b.getD n []).set m c)) p k ≤ countOppB b p k := by
  intro b
  induction b with
  | nil => intro n m; simp
  | cons r t ih =>
    intro n m
    cases n with
    | zero =>
      rw [List.getD_cons_zero, show (r :: t).set 0 (r.set m c) = r.set m c :: t from rfl]
      rw [countOppB, countOppB]
      simp only [List.map_cons, List.sum_cons]
      exact Nat.add_le_add_right (countP_set_le _ c hc r m) _
    | succ n =>
      rw [List.getD_cons_succ, show (r :: t).set (n + 1) ((t.getD n []).set m c) =
        r :: t.set n ((t.getD n []).set m c) from rfl]
      rw [countOppB, countOppB]
      simp only [List.map_cons, List.sum_cons]
      exact Nat.add_le_add_left (ih n m) _

lemma countOppB_set_lt (p k c : Char) (hc : (c == p || c == k) = false)
    (hd : (EMPTY_SQUARE == p || EMPTY_SQUARE == k) = false) :
    ∀ (b : Board) (n m : Nat),
      (((b.getD n []).getD m EMPTY_SQUARE == p ||
        (b.getD n []).getD m EMPTY_SQUARE == k) = true) →
      countOppB (b.set n ((b.getD n []).set m c)) p k < countOppB b p k := by
  intro b
  induction b with
  | nil =>
    intro n m hg
    rw [List.getD_nil, List.getD_nil] at hg
    rw [hg] at hd
    exact absurd hd (by simp)
  | cons r t ih =>
    intro n m hg
    cases n with
    | zero =>
      rw [List.getD_cons_zero] at hg
      rw [List.getD_cons_zero, show (r :: t).set 0 (r.set m c) = r.set m c :: t from rfl]
      rw [countOppB, countOppB]
      simp only [List.map_cons, List.sum_cons]
      exact Nat.add_lt_add_right (countP_set_lt _ c EMPTY_SQUARE hc hd r m hg) _
    | succ n =>
      rw [List.getD_cons_succ] at hg
      rw [List.getD_cons_succ, show (r :: t).set (n + 1) ((t.getD n []).set m c) =
        r :: t.set n ((t.getD n []).set m c) from rfl]
      rw [countOppB, countOppB]
      simp only [List.map_cons, List.sum_cons]
      exact Nat.add_lt_add_left (ih n m hg) _

lemma countOppB_setC_le (b : Board) (i j : Int) (c p k : Char)
    (hc : (c == p || c == k) = false) :
    countOppB (setC b i j c) p k ≤ countOppB b p k := by
  rw [setC]
  split
  · exact countOppB_set_le p k c hc b i.toNat j.toNat
  · exact le_refl _

lemma countOppB_setC_lt (b : Board) (i j : Int) (c p k : Char)
    (hc : (c == p || c == k) = false)
    (hd : (EMPTY_SQUARE == p || EMPTY_SQUARE == k) = false)
    (hg : (getC b i j == p || getC b i j == k) = true) :
    countOppB (setC b i j c) p k < countOppB b p k := by
  rw [getC] at hg
  rw [setC]
  split
  · rename_i hin
    rw [if_pos hin] at hg
    exact countOppB_set_lt p k c hc hd b i.toNat j.toNat hg
  · rename_i hin
    rw [if_neg hin] at hg
    rw [hg] at hd
    exact absurd hd (by simp)

/-- Writing one square leaves every other square unchanged. -/
lemma getC_setC_ne (b : Board) (i j i' j' : Int) (c : Char) (h : ¬(i' = i ∧ j' = j)) :
    getC (setC b i j c) i' j' = getC b i' j' := by
  rw [getC, getC, setC]
  by_cases hset : 0 ≤ i ∧ i < HEIGHT ∧ 0 ≤ j ∧ j < WIDTH
  · rw [if_pos hset]
    by_cases hget : 0 ≤ i' ∧ i' < HEIGHT ∧ 0 ≤ j' ∧ j' < WIDTH
    · rw [if_pos hget, if_pos hget]
      simp only [List.getD_eq_getElem?_getD]
      rw [List.getElem?_set]
      by_cases hii : i.toNat = i'.toNat
      · have hi' : i' = i := by
          rcases hset with ⟨hs1, _⟩
          rcases hget with ⟨hg1, _⟩
          omega
        have hjj : j.toNat ≠ j'.toNat := by
          rcases hset with ⟨_, _, hs3, _⟩
          rcases hget with ⟨_, _, hg3, _⟩
          intro hj
          exact h ⟨hi', by omega⟩
        rw [if_pos hii]
        by_cases hlen : i.toNat < b.length
        · rw [if_pos hlen]
          simp only [Option.getD_some]
          rw [List.getElem?_set_ne hjj, hii]
        · rw [if_neg hlen]
          have hnone : b[i'.toNat]? = none := by
            rw [List.getElem?_eq_none]
            omega
          rw [hnone]
      · rw [if_neg hii]
    · rw [if_neg hget, if_neg hget]
  · rw [if_neg hset]

end Checkers

namespace Checkers

lemma empty_not_opp (turn : Char) :
    ((EMPTY_SQUARE == opp_piece turn) || (EMPTY_SQUARE == opp_king turn)) = false := by
  by_cases h : turn = RED_PIECE
  · simp [opp_piece, opp_king, EMPTY_SQUARE, RED_PIECE, BLACK_PIECE, RED_KING, BLACK_KING, h]
  · rw [RED_PIECE] at h
    simp [opp_piece, opp_king, EMPTY_SQUARE, RED_PIECE, BLACK_PIECE, RED_KING, BLACK_KING, h]

lemma piece_of_not_opp (turn : Char) :
    ((piece_of turn == opp_piece turn) || (piece_of turn == opp_king turn)) = false := by
  by_cases h : turn = RED_PIECE
  · simp [piece_of, opp_piece, opp_king, RED_PIECE, BLACK_PIECE, RED_KING, BLACK_KING, h]
  · rw [RED_PIECE] at h
    simp [piece_of, opp_piece, opp_king, RED_PIECE, BLACK_PIECE, RED_KING, BLACK_KING, h]

lemma king_of_not_opp (turn : Char) :
    ((king_of turn == opp_piece turn) || (king_of turn == opp_king turn)) = false := by
  by_cases h : turn = RED_PIECE
  · simp [king_of, opp_piece, opp_king, RED_PIECE, BLACK_PIECE, RED_KING, BLACK_KING, h]
  · rw [RED_PIECE] at h
    simp [king_of, opp_piece, opp_king, RED_PIECE, BLACK_PIECE, RED_KING, BLACK_KING, h]

/-- A legal jump strictly decreases the number of opponent pieces on the
board copy (the captured piece is erased; the mover's own characters do not
count as opponent pieces). -/
lemma jump_step_count_lt (s : State) (i j x y : Int) (b : Board) (c : Char)
    (hcp : ((c == opp_piece s.next_turn) || (c == opp_king s.next_turn)) = false)
    (hx : x ≠ 0)
    (hcj : can_jump (i + x) (j + y) (i + x + x) (j + y + y)
      (opp_piece s.next_turn) (opp_king s.next_turn) b = true) :
    countOppB (setC (setC (setC b i j EMPTY_SQUARE) (i + x) (j + y) EMPTY_SQUARE)
        (i + x + x) (j + y + y) c)
      (opp_piece s.next_turn) (opp_king s.next_turn) <
    countOppB b (opp_piece s.next_turn) (opp_king s.next_turn) := by
  have hopp : (getC b (i + x) (j + y) == opp_piece s.next_turn ||
      getC b (i + x) (j + y) == opp_king s.next_turn) = true := by
    rw [can_jump] at hcj
    simp only [Bool.and_eq_true] at hcj
    exact hcj.2
  have hframe : getC (setC b i j EMPTY_SQUARE) (i + x) (j + y) = getC b (i + x) (j + y) :=
    getC_setC_ne _ _ _ _ _ _ (by rintro ⟨h1, _⟩; omega)
  calc countOppB (setC (setC (setC b i j EMPTY_SQUARE) (i + x) (j + y) EMPTY_SQUARE)
        (i + x + x) (j + y + y) c) (opp_piece s.next_turn) (opp_king s.next_turn)
      ≤ countOppB (setC (setC b i j EMPTY_SQUARE) (i + x) (j + y) EMPTY_SQUARE)
        (opp_piece s.next_turn) (opp_king s.next_turn) :=
        countOppB_setC_le _ _ _ _ _ _ hcp
    _ < countOppB (setC b i j EMPTY_SQUARE)
        (opp_piece s.next_turn) (opp_king s.next_turn) :=
        countOppB_setC_lt _ _ _ _ _ _ (empty_not_opp _) (empty_not_opp _)
          (by rw [hframe]; exact hopp)
    _ ≤ countOppB b (opp_piece s.next_turn) (opp_king s.next_turn) :=
        countOppB_setC_le _ _ _ _ _ _ (empty_not_opp _)

lemma piece_dirs_x_ne (turn : Char) : ∀ d ∈ piece_dirs turn, d.1 ≠ 0 := by
  intro d hd
  rw [piece_dirs] at hd
  split at hd <;> simp at hd <;> rcases hd with rfl | rfl <;> decide

lemma king_dirs_x_ne : ∀ d ∈ king_dirs, d.1 ≠ 0 := by
  intro d hd
  rw [king_dirs] at hd
  simp at hd
  rcases hd with rfl | rfl | rfl | rfl <;> decide

end Checkers

namespace Checkers

/-- Fuel-irrelevance for man jump chains: any two fuels strictly above the
opponent piece count yield identical successor lists. -/
lemma jump_piece_go_fuel (s : State) : ∀ (f1 f2 : Nat) (i j : Int) (b : Board),
    countOppB b (opp_piece s.next_turn) (opp_king s.next_turn) < f1 →
    countOppB b (opp_piece s.next_turn) (opp_king s.next_turn) < f2 →
    jump_piece_go s f1 i j b = jump_piece_go s f2 i j b := by
  intro f1
  induction f1 with
  | zero =>
    intro f2 i j b h1 _
    exact absurd h1 (Nat.not_lt_zero _)
  | succ a ih =>
    intro f2 i j b h1 h2
    cases f2 with
    | zero => exact absurd h2 (Nat.not_lt_zero _)
    | succ a2 =>
      rw [jump_piece_go, jump_piece_go]
      dsimp only
      by_cases hC : ((piece_dirs s.next_turn).all fun d =>
          !(can_jump (i + d.1) (j + d.2) (i + d.1 + d.1) (j + d.2 + d.2)
            (opp_piece s.next_turn) (opp_king s.next_turn) b)) = true
      · rw [hC]
        simp
      · simp only [Bool.not_eq_true] at hC
        rw [hC]
        simp only [Bool.false_and, Bool.false_eq_true, if_false]
        apply congrArg List.flatten
        apply List.map_congr_left
        intro d hd
        by_cases hcj : can_jump (i + d.1) (j + d.2) (i + d.1 + d.1) (j + d.2 + d.2)
            (opp_piece s.next_turn) (opp_king s.next_turn) b = true
        · rw [if_pos hcj, if_pos hcj]
          by_cases hpr : ((i + d.1 + d.1 == 0 && s.next_turn == RED_PIECE) ||
              (i + d.1 + d.1 == HEIGHT - 1 && s.next_turn == BLACK_PIECE)) = true
          · rw [if_pos hpr, if_pos hpr]
          · rw [if_neg hpr, if_neg hpr]
            have hlt := jump_step_count_lt s i j d.1 d.2 b (piece_of s.next_turn)
              (piece_of_not_opp _) (piece_dirs_x_ne _ d hd) hcj
            exact ih a2 _ _ _ (by omega) (by omega)
        · rw [if_neg hcj, if_neg hcj]

/-- Fuel-irrelevance for king jump chains. -/
lemma jump_king_go_fuel (s : State) : ∀ (f1 f2 : Nat) (i j : Int) (b : Board),
    countOppB b (opp_piece s.next_turn) (opp_king s.next_turn) < f1 →
    countOppB b (opp_piece s.next_turn) (opp_king s.next_turn) < f2 →
    jump_king_go s f1 i j b = jump_king_go s f2 i j b := by
  intro f1
  induction f1 with
  | zero =>
    intro f2 i j b h1 _
    exact absurd h1 (Nat.not_lt_zero _)
  | succ a ih =>
    intro f2 i j b h1 h2
    cases f2 with
    | zero => exact absurd h2 (Nat.not_lt_zero _)
    | succ a2 =>
      rw [jump_king_go, jump_king_go]
      dsimp only
      by_cases hC : (king_dirs.all fun d =>
          !(can_jump (i + d.1) (j + d.2) (i + d.1 + d.1) (j + d.2 + d.2)
            (opp_piece s.next_turn) (opp_king s.next_turn) b)) = true
      · rw [hC]
        simp
      · simp only [Bool.not_eq_true] at hC
        rw [hC]
        simp only [Bool.false_and, Bool.false_eq_true, if_false]
        apply congrArg List.flatten
        apply List.map_congr_left
        intro d hd
        by_cases hcj : can_jump (i + d.1) (j + d.2) (i + d.1 + d.1) (j + d.2 + d.2)
            (opp_piece s.next_turn) (opp_king s.next_turn) b = true
        · rw [if_pos hcj, if_pos hcj]
          have hlt := jump_step_count_lt s i j d.1 d.2 b (king_of s.next_turn)
            (king_of_not_opp _) (king_dirs_x_ne d hd) hcj
          exact ih a2 _ _ _ (by omega) (by omega)
        · rw [if_neg hcj, if_neg hcj]

/-- The wrapper's fuel `countOppB + 1` is canonical: every sufficient fuel
computes `State._generate_jump_moves_for_piece`. -/
theorem jump_piece_fuel_sufficient (s : State) (f : Nat) (i j : Int) (b : Board)
    (hf : countOppB b (opp_piece s.next_turn) (opp_king s.next_turn) < f) :
    jump_piece_go s f i j b = s._generate_jump_moves_for_piece i j b :=
  jump_piece_go_fuel s f _ i j b hf (Nat.lt_succ_self _)

/-- As above, for kings. -/
theorem jump_king_fuel_sufficient (s : State) (f : Nat) (i j : Int) (b : Board)
    (hf : countOppB b (opp_piece s.next_turn) (opp_king s.next_turn) < f) :
    jump_king_go s f i j b = s._generate_jump_moves_for_king i j b :=
  jump_king_go_fuel s f _ i j b hf (Nat.lt_succ_self _)

end Checkers
